import Mathlib

/-!
Shallow embedding of the synthetic retail-data generator
(`src/app/backend/seed_data.py`) and verification of its specification.

Modelling conventions, chosen once and used throughout:

* Python floats are modelled as exact rationals (`ℚ`); `round(x, 2)` is
  `round2` (round to nearest at two decimals); `price_round` is the source's
  `round(max(p, 0.01), 2)`.
* Timestamps are integers counting minutes; dates are integers counting days
  (day `d` spans minutes `[1440*d, 1440*d + 1439]`), with day 0 a Monday so
  that `weekday = day % 7` and the weekend test is `weekday >= 5`.
* The pseudo-random streams of Python's `random` module (the module-global
  stream and the `random.Random(seed+777)` instance) are modelled as lists of
  rationals consumed left to right; an exhausted stream yields 0.  Each draw
  primitive maps the next raw stream value into the range Python guarantees
  (`random()` into `[0,1)`, `randint(a,b)` into `[a,b]`, ...), while
  `gauss(mu, sigma)` returns the raw value itself, since a Gaussian has full
  real support.  `random.choice` is modelled by an index draw reduced modulo
  the list length, `random.shuffle` by the Fisher-Yates walk CPython performs.
* The irrational transcendental steps are abstracted by parameters: `sinp`
  stands for `x ↦ sin (π * x)` (the diurnal multiplier calls it exactly on
  the source's `(hour - peak)/24*2` argument), and the draw consumed by
  `zipf_like_index` stands for the already-powered value `r ** (1/(1+s))`,
  which is an order-preserving bijection of `[0,1)` applied to `r = random()`.
* Fallible Python operations (list indexing, `dict[key]`, `choice` on an
  empty sequence) are modelled with `Option`: an exception is `none`.
-/

namespace SeedData

attribute [local semireducible] Rat.mul Rat.inv Rat.add Rat.sub Rat.ofScientific

/-- Round a rational to the nearest multiple of 1/100 (Python `round(x, 2)`;
the float tie-breaking of CPython is abstracted to round-half-up). -/
def round2 (q : ℚ) : ℚ := (round (q * 100) : ℤ) / 100

/-- Source `price_round`: `round(max(p, 0.01), 2)`. -/
def priceRound (p : ℚ) : ℚ := round2 (max p (1/100))

/-- Python `int(x)` on a float: truncation toward zero. -/
def truncInt (q : ℚ) : ℤ := Int.tdiv q.num (q.den : ℤ)

/-- Clamp a raw stream value into `[0,1)`, the range of `random.random()`. -/
def toUnit (q : ℚ) : ℚ := if 0 ≤ q ∧ q < 1 then q else 0

/-- Pop the next raw value off a stream (0 once exhausted). -/
def drawQ : List ℚ → ℚ × List ℚ
  | [] => (0, [])
  | q :: s => (q, s)

/-- `random.random()`: a draw in `[0,1)`. -/
def randomU (s : List ℚ) : ℚ × List ℚ :=
  let (q, s1) := drawQ s
  (toUnit q, s1)

/-- `random.uniform(a, b)`: CPython computes `a + (b-a) * random()`. -/
def uniformD (a b : ℚ) (s : List ℚ) : ℚ × List ℚ :=
  let (r, s1) := randomU s
  (a + (b - a) * r, s1)

/-- Reduce a raw stream value to an integer draw below `k`. -/
def natDraw (q : ℚ) (k : ℕ) : ℕ := (Int.toNat ⌊q⌋) % k

/-- `random.randint(a, b)`: lands in `[a, b]` whenever `a ≤ b`. -/
def randintD (a b : ℤ) (s : List ℚ) : ℤ × List ℚ :=
  let (q, s1) := drawQ s
  (a + (natDraw q (b - a + 1).toNat : ℤ), s1)

/-- `random.gauss(mu, sigma)`: the stream value is the sampled real itself
(a Gaussian has full support, so any rational is a legal outcome). -/
def gaussD (_mu _sigma : ℚ) (s : List ℚ) : ℚ × List ℚ := drawQ s

/-- Index draw below `n` for `random.choice`. -/
def chooseIdx (n : ℕ) (s : List ℚ) : ℕ × List ℚ :=
  let (q, s1) := drawQ s
  (natDraw q n, s1)

/-- `random.choice(seq)`: `none` on an empty sequence (Python raises). -/
def chooseL {α : Type} (l : List α) (s : List ℚ) : Option α × List ℚ :=
  let (i, s1) := chooseIdx l.length s
  (l[i]?, s1)

/-- One weighted pick (`random.choices(seq, weights)[0]`): a unit draw scaled
by the total weight, walked along the cumulative weights. -/
def weightedPickAux (x : ℚ) : List (String × ℚ) → String
  | [] => ""
  | [(a, _)] => a
  | (a, w) :: rest => if x < w then a else weightedPickAux (x - w) rest

/-- Weighted categorical draw, consuming one `random()` value. -/
def weightedPick (l : List (String × ℚ)) (s : List ℚ) : String × List ℚ :=
  let (r, s1) := randomU s
  (weightedPickAux (r * (l.map (·.2)).sum) l, s1)

/-- Alphabet of `rand_sku`: uppercase ASCII letters then digits. -/
def skuAlphabet : List Char := "ABCDEFGHIJKLMNOPQRSTUVWXYZ0123456789".toList

/-- Characters of `rand_sku`: `k` draws from the 36-character alphabet. -/
def skuChars : ℕ → List ℚ → List Char × List ℚ
  | 0, s => ([], s)
  | k + 1, s =>
    let (i, s1) := chooseIdx 36 s
    let (cs, s2) := skuChars k s1
    (skuAlphabet.getD i 'A' :: cs, s2)

/-- Source `rand_sku`: 8 random alphanumeric characters. -/
def randSku (s : List ℚ) : String × List ℚ :=
  let (cs, s1) := skuChars 8 s
  (String.mk cs, s1)

/-- The geometric coin-flip loop of the order generator: count the leading
draws that fall below `p`.  The count is bounded by the stream length, which
models any execution in which Python's loop terminates. -/
def geometricD (p : ℚ) : List ℚ → ℕ × List ℚ
  | [] => (0, [])
  | q :: rest =>
    if toUnit q < p then
      let (k, r) := geometricD p rest
      (k + 1, r)
    else (0, rest)

/-- Swap two positions of a list (no-op when either index is out of range). -/
def listSwap {α : Type} (l : List α) (i j : ℕ) : List α :=
  match l[i]?, l[j]? with
  | some vi, some vj => (l.set i vj).set j vi
  | _, _ => l

/-- Fisher-Yates walk over a given descending index list. -/
def fyAux {α : Type} (l : List α) : List ℕ → List ℚ → List α × List ℚ
  | [], s => (l, s)
  | i :: rest, s =>
    let (q, s1) := drawQ s
    fyAux (listSwap l i (natDraw q (i + 1))) rest s1

/-- `random.shuffle`: CPython iterates `i` from `len-1` down to `1`, swapping
`l[i]` with `l[j]` for a draw `j ≤ i`. -/
def shuffleL {α : Type} (l : List α) (s : List ℚ) : List α × List ℚ :=
  fyAux l ((List.range' 1 (l.length - 1)).reverse) s

/-- Core of `zipf_like_index` as a function of the powered draw
`u = r ** (1/(1+s))` (for `s > -1` and `r ∈ [0,1)` this is again in `[0,1)`):
`idx = int(u * n)`, clamped to `n - 1` when `idx >= n`. -/
def zipfCore (n : ℕ) (u : ℚ) : ℤ :=
  let idx := truncInt (u * n)
  if (n : ℤ) ≤ idx then (n : ℤ) - 1 else idx

/-- `zipf_like_index(n, s)` consuming one draw from the (module-global)
stream; the stream value stands for the powered uniform draw. -/
def zipfDraw (n : ℕ) (s : List ℚ) : ℤ × List ℚ :=
  let (u, s1) := randomU s
  (zipfCore n u, s1)

/-- Day number of a minute timestamp (`datetime.date()`). -/
def dayOf (t : ℤ) : ℤ := t / 1440

/-- Source `diurnal_multiplier`; `sinp x` stands for `sin (π * x)`. -/
def diurnalMult (sinp : ℚ → ℚ) (t : ℤ) : ℚ :=
  let hour : ℚ := ((t % 1440) / 60 : ℤ) + (((t % 1440) % 60 : ℤ) : ℚ) / 60
  let peak1 := (1/2) * (1 + sinp ((hour - 12) / 24 * 2))
  let peak2 := (1/2) * (1 + sinp ((hour - 18) / 24 * 2))
  0.6 + 0.8 * (0.6 * peak1 + 0.4 * peak2)

/-- Source `weekend_multiplier`: 1.15 on Saturday/Sunday. -/
def weekendMult (t : ℤ) : ℚ := if 5 ≤ dayOf t % 7 then 1.15 else 1

/-- Python list indexing: negative indices count from the end; out of range
raises (modelled as `none`). -/
def pyIdx {α : Type} (l : List α) (i : ℤ) : Option α :=
  if 0 ≤ i then l[i.toNat]?
  else if 0 ≤ (l.length : ℤ) + i then l[((l.length : ℤ) + i).toNat]?
  else none

/-- Decimal digit character. -/
def decChar (d : ℕ) : Char := Char.ofNat (48 + d)

/-- Decimal digit characters, most significant first, by fuel-bounded
recursion (any fuel at least the number itself is enough). -/
def decCharsCore : ℕ → ℕ → List Char
  | 0, _ => []
  | fuel + 1, n =>
    if n < 10 then [decChar n]
    else decCharsCore fuel (n / 10) ++ [decChar (n % 10)]

/-- Decimal digit characters of a natural number, most significant first
(Python `str(n)`). -/
def decChars (n : ℕ) : List Char := decCharsCore (n + 1) n

/-- Python `str(n)` for a natural number. -/
def decStr (n : ℕ) : String := String.mk (decChars n)

/-- Zero-pad a character list on the left to width `w` (Python `f"{c:0wd}"`). -/
def padChars (w : ℕ) (cs : List Char) : List Char :=
  List.replicate (w - cs.length) '0' ++ cs

/-- Characters of an order id: `f"O{seed}{counter:08d}"`. -/
def orderIdChars (seed c : ℕ) : List Char :=
  'O' :: decChars seed ++ padChars 8 (decChars c)

/-- Source order id `f"O{seed}{counter:08d}"`. -/
def orderIdStr (seed c : ℕ) : String := String.mk (orderIdChars seed c)

/-! ## Data model -/

/-- A `stores` record. -/
structure Store where
  store_id : ℕ
  name : String
  region : String
  city : String
  latitude : ℚ
  longitude : ℚ
  opened_date : ℤ
  deriving Repr, DecidableEq

/-- A `products` record. -/
structure Product where
  product_id : ℕ
  sku : String
  name : String
  category : String
  brand : String
  base_price : ℚ
  deriving Repr, DecidableEq

/-- A `customers` record. -/
structure Customer where
  customer_id : ℕ
  segment : String
  signup_ts : ℤ
  home_region : String
  home_city : String
  deriving Repr, DecidableEq

/-- A `promotions` record; dates are day numbers. -/
structure Promotion where
  promo_id : String
  product_id : ℕ
  start_date : ℤ
  end_date : ℤ
  promo_type : String
  discount_pct : ℚ
  deriving Repr, DecidableEq

/-- An `orders` record; `order_ts` is a minute timestamp. -/
structure Order where
  order_id : String
  store_id : ℕ
  customer_id : ℕ
  order_ts : ℤ
  payment_type : String
  discount_pct : ℚ
  deriving Repr, DecidableEq

/-- An `order_items` record. -/
structure OrderItem where
  order_id : String
  line_number : ℕ
  product_id : ℕ
  qty : ℤ
  unit_price : ℚ
  extended_price : ℚ
  deriving Repr, DecidableEq

/-- An `inventory_snapshots` record. -/
structure InventorySnapshot where
  snapshot_ts : ℤ
  store_id : ℕ
  product_id : ℕ
  on_hand : ℤ
  on_order : ℤ
  safety_stock : ℤ
  reorder_qty : ℤ
  deriving Repr, DecidableEq

/-- A scale tier. -/
structure Scale where
  stores : ℕ
  products : ℕ
  customers : ℕ
  orders_estimate : ℕ
  deriving Repr, DecidableEq

/-- The three preset scale tiers. -/
def SCALES : List (String × Scale) :=
  [("small", ⟨10, 200, 2000, 4000⟩),
   ("medium", ⟨50, 1000, 25000, 75000⟩),
   ("large", ⟨200, 5000, 120000, 500000⟩)]

/-! ## Constant tables -/

/-- Source `REGIONS`. -/
def REGIONS : List String := ["West", "Central", "East"]

/-- Source `CITIES_BY_REGION` as a lookup. -/
def citiesByRegion (r : String) : List String :=
  if r = "West" then
    ["Vancouver", "Seattle", "Portland", "San Francisco", "San Jose", "Calgary"]
  else if r = "Central" then
    ["Denver", "Dallas", "Houston", "Chicago", "Minneapolis", "Kansas City"]
  else if r = "East" then
    ["New York", "Boston", "Philadelphia", "Toronto", "Montreal", "Ottawa"]
  else []

/-- Source `CATEGORIES` (insertion order of the dict). -/
def CATEGORIES : List (String × List String) :=
  [("Beverages", ["SparkleCo", "H2Only", "BeanWorks", "Leaf&Lime"]),
   ("Snacks", ["CrunchLabs", "NuttyBuddy", "SweetTreats", "SaltyWave"]),
   ("Household", ["HomeGuard", "ShinePro", "EcoClean", "FreshNest"]),
   ("Personal Care", ["GlowCare", "PureForm", "DailyZen", "Wellness+"]),
   ("Produce", ["GreenFields", "SunValley", "OrchardPrime"]),
   ("Frozen", ["ArcticBite", "FrostyFarm", "CoolCuisine"])]

/-- Source `PAYMENT_TYPES` with the weights used in the order generator. -/
def payTypesW : List (String × ℚ) := [("card", 7/10), ("cash", 3/20), ("mobile", 3/20)]

/-- Source `PROMO_TYPES`. -/
def PROMO_TYPES : List String := ["BOGO-lite", "PercentOff", "PriceDrop"]

/-- Customer segments with their weights. -/
def segmentsW : List (String × ℚ) :=
  [("casual", 1/2), ("loyal", 1/5), ("bargain", 1/5), ("premium", 1/10)]

/-- Rounding used by `random_lat_lon` (6 decimals). -/
def round6 (q : ℚ) : ℚ := (round (q * 1000000) : ℤ) / 1000000

/-- Bounding boxes of `random_lat_lon`. -/
def latLonBox (r : String) : ℚ × ℚ × ℚ × ℚ :=
  if r = "West" then (37, 49.5, -123.5, -121)
  else if r = "Central" then (32, 45, -106, -93)
  else (40, 46, -79, -70)

/-! ## Dimension generators -/

/-- One iteration of the `gen_stores` loop, for each id in `ids`. -/
def genStoresAux (startD : ℤ) : List ℕ → List ℚ → List Store × List ℚ
  | [], s => ([], s)
  | i :: rest, s =>
    let (rIdx, s1) := chooseIdx REGIONS.length s
    let region := REGIONS.getD rIdx ""
    let cities := citiesByRegion region
    let (cIdx, s2) := chooseIdx cities.length s1
    let city := cities.getD cIdx ""
    let (lo1, hi1, lo2, hi2) := latLonBox region
    let (latR, s3) := uniformD lo1 hi1 s2
    let (lonR, s4) := uniformD lo2 hi2 s3
    let (dAgo, s5) := randintD 60 (365 * 5) s4
    let st : Store :=
      { store_id := i, name := "Store " ++ String.mk (padChars 3 (decChars i)),
        region := region, city := city, latitude := round6 latR,
        longitude := round6 lonR, opened_date := startD - dAgo }
    let (rest2, s6) := genStoresAux startD rest s5
    (st :: rest2, s6)

/-- Source `gen_stores(n, start_date)`. -/
def genStores (n : ℕ) (startD : ℤ) (s : List ℚ) : List Store × List ℚ :=
  genStoresAux startD (List.range' 1 n) s

/-- One product of the first phase of `gen_products` (draw order follows the
source: brand, sku, uniform price, price factor, the name's `randint`). -/
def mkProduct (pid : ℕ) (category : String) (brands : List String) (s : List ℚ) :
    Product × List ℚ :=
  let (bIdx, s1) := chooseIdx brands.length s
  let brand := brands.getD bIdx ""
  let (sku, s2) := randSku s1
  let (u, s3) := uniformD 1 30 s2
  let (fIdx, s4) := chooseIdx 4 s3
  let factor := [(0.99 : ℚ), 0.95, 0.9, 1].getD fIdx 1
  let (nm, s5) := randintD 10 999 s4
  ({ product_id := pid, sku := sku,
     name := brand ++ " " ++ category ++ " " ++ decStr nm.toNat,
     category := category, brand := brand,
     base_price := priceRound (u * factor) }, s5)

/-- Inner loop of `gen_products` over one category: up to `k` products, with
the early return (`product_id > n`) signalled by the boolean. -/
def prodInner (category : String) (brands : List String) :
    ℕ → ℕ → ℕ → List ℚ → List Product × ℕ × List ℚ × Bool
  | 0, pid, _, s => ([], pid, s, false)
  | k + 1, pid, n, s =>
    let (p, s1) := mkProduct pid category brands s
    if n < pid + 1 then ([p], pid + 1, s1, true)
    else
      let (ps, pid2, s2, stop) := prodInner category brands k (pid + 1) n s1
      (p :: ps, pid2, s2, stop)

/-- Outer loop of `gen_products` over the categories. -/
def prodOuter : List (String × List String) → ℕ → ℕ → ℕ → List ℚ →
    List Product × ℕ × List ℚ
  | [], _, pid, _, s => ([], pid, s)
  | (c, brands) :: rest, perCat, pid, n, s =>
    let (ps, pid1, s1, stop) := prodInner c brands perCat pid n s
    if stop then (ps, pid1, s1)
    else
      let (ps2, pid2, s2) := prodOuter rest perCat pid1 n s1
      (ps ++ ps2, pid2, s2)

/-- One product of the fill loop of `gen_products` (draw order follows the
source: category, brand, sku, the name's `randint`, uniform price). -/
def mkFillProduct (pid : ℕ) (s : List ℚ) : Product × List ℚ :=
  let (cIdx, s1) := chooseIdx CATEGORIES.length s
  let (category, brands) := CATEGORIES.getD cIdx ("", [])
  let (bIdx, s2) := chooseIdx brands.length s1
  let brand := brands.getD bIdx ""
  let (sku, s3) := randSku s2
  let (nm, s4) := randintD 10 999 s3
  let (u, s5) := uniformD 1 30 s4
  ({ product_id := pid, sku := sku,
     name := brand ++ " " ++ category ++ " " ++ decStr nm.toNat,
     category := category, brand := brand, base_price := priceRound u }, s5)

/-- Fill loop of `gen_products` (`while product_id <= n`). -/
def prodFill : List ℕ → List ℚ → List Product × List ℚ
  | [], s => ([], s)
  | i :: rest, s =>
    let (p, s1) := mkFillProduct i s
    let (ps, s2) := prodFill rest s1
    (p :: ps, s2)

/-- Source `gen_products(n)`: roughly even distribution across the six
categories (`per_cat = max(1, n // 6)`), early return at `product_id > n`,
then a fill loop up to `n`. -/
def genProducts (n : ℕ) (s : List ℚ) : List Product × List ℚ :=
  let perCat := max 1 (n / 6)
  let (ps, pid1, s1) := prodOuter CATEGORIES perCat 1 n s
  let (ps2, s2) := prodFill (List.range' pid1 (n + 1 - pid1)) s1
  (ps ++ ps2, s2)

/-- One iteration of the `gen_customers` loop.  `now` is the wall-clock
reading `datetime.now(timezone.utc)` in minutes: the signup timestamp is
`now` minus a random number of days, so it depends on the clock. -/
def genCustomersAux (now : ℤ) : List ℕ → List ℚ → List Customer × List ℚ
  | [], s => ([], s)
  | i :: rest, s =>
    let (rIdx, s1) := chooseIdx REGIONS.length s
    let region := REGIONS.getD rIdx ""
    let cities := citiesByRegion region
    let (cIdx, s2) := chooseIdx cities.length s1
    let city := cities.getD cIdx ""
    let (dAgo, s3) := randintD 30 (365 * 4) s2
    let (seg, s4) := weightedPick segmentsW s3
    let c : Customer :=
      { customer_id := i, segment := seg, signup_ts := now - dAgo * 1440,
        home_region := region, home_city := city }
    let (rest2, s5) := genCustomersAux now rest s4
    (c :: rest2, s5)

/-- Source `gen_customers(n)`. -/
def genCustomers (n : ℕ) (now : ℤ) (s : List ℚ) : List Customer × List ℚ :=
  genCustomersAux now (List.range' 1 n) s

/-! ## Promotions -/

/-- Source `gen_promotions`: each product has a 25% chance of one promotion;
duration `randint(5, 14)`, start offset `randint(0, max(0, window - duration))`. -/
def genPromosAux (startD endD : ℤ) : List Product → List ℚ → List Promotion × List ℚ
  | [], s => ([], s)
  | p :: rest, s =>
    let (g, s1) := randomU s
    if g < 1/4 then
      let (dur, s2) := randintD 5 14 s1
      let (off, s3) := randintD 0 (max 0 (endD - startD - dur)) s2
      let startDate := startD + off
      let (tIdx, s4) := chooseIdx PROMO_TYPES.length s3
      let (du, s5) := uniformD (1/20) (3/10) s4
      let (sku, s6) := randSku s5
      let pr : Promotion :=
        { promo_id := sku, product_id := p.product_id, start_date := startDate,
          end_date := startDate + dur, promo_type := PROMO_TYPES.getD tIdx "",
          discount_pct := round2 du }
      let (rest2, s7) := genPromosAux startD endD rest s6
      (pr :: rest2, s7)
    else
      let (rest2, s2) := genPromosAux startD endD rest s1
      (rest2, s2)

/-- Source `gen_promotions(products, start_d, end_d)`. -/
def genPromotions (products : List Product) (startD endD : ℤ) (s : List ℚ) :
    List Promotion × List ℚ :=
  genPromosAux startD endD products s

/-- Source `_promo_lookup`: per-product list of `(start, end, discount)`
windows in generation order. -/
def promoLookup (promos : List Promotion) (pid : ℕ) : List (ℤ × ℤ × ℚ) :=
  (promos.filter (fun pr => pr.product_id == pid)).map
    (fun pr => (pr.start_date, pr.end_date, pr.discount_pct))

/-- Source `is_promo_active`: the first window containing the order's date
wins; 0.0 when none matches. -/
def isPromoActive (pid : ℕ) (ts : ℤ) (idx : ℕ → List (ℤ × ℤ × ℚ)) : ℚ :=
  match (idx pid).find? (fun w => decide (w.1 ≤ dayOf ts) && decide (dayOf ts ≤ w.2.1)) with
  | some w => w.2.2
  | none => 0

/-! ## Inventory snapshots -/

/-- Innermost loop of `gen_inventory_snapshots` (per product). -/
def invProducts (snapTs : ℤ) (sid : ℕ) : List Product → List ℚ →
    List InventorySnapshot × List ℚ
  | [], s => ([], s)
  | p :: rest, s =>
    let (g, s1) := gaussD 40 15 s
    let onHand : ℤ := max 0 (truncInt g)
    let (u, s2) := uniformD (3/20) (7/20) s1
    let safety : ℤ := max 5 (truncInt ((onHand : ℚ) * u))
    let ind : ℤ := if onHand < safety then 1 else 0
    let (r1, s3) := randintD 10 60 s2
    let (r2, s4) := randintD 10 40 s3
    let snap : InventorySnapshot :=
      { snapshot_ts := snapTs, store_id := sid, product_id := p.product_id,
        on_hand := onHand, on_order := ind * r1, safety_stock := safety,
        reorder_qty := ind * r2 }
    let (rest2, s5) := invProducts snapTs sid rest s4
    (snap :: rest2, s5)

/-- Per-store loop of `gen_inventory_snapshots`. -/
def invStores (snapTs : ℤ) (products : List Product) : List Store → List ℚ →
    List InventorySnapshot × List ℚ
  | [], s => ([], s)
  | st :: rest, s =>
    let (sn1, s1) := invProducts snapTs st.store_id products s
    let (sn2, s2) := invStores snapTs products rest s1
    (sn1 ++ sn2, s2)

/-- Per-day loop of `gen_inventory_snapshots` (6am snapshot each day). -/
def invDays (stores : List Store) (products : List Product) (startD : ℤ) :
    List ℕ → List ℚ → List InventorySnapshot × List ℚ
  | [], s => ([], s)
  | d :: rest, s =>
    let (sn1, s1) := invStores ((startD + d) * 1440 + 360) products stores s
    let (sn2, s2) := invDays stores products startD rest s1
    (sn1 ++ sn2, s2)

/-- Source `gen_inventory_snapshots(stores, products, start_d, end_d)`. -/
def genInventorySnapshots (stores : List Store) (products : List Product)
    (startD endD : ℤ) (s : List ℚ) : List InventorySnapshot × List ℚ :=
  invDays stores products startD (List.range (endD - startD + 1).toNat) s

/-! ## Orders and line items -/

/-- The `store_bias` dict: one `uniform(0.7, 1.3)` draw per store. -/
def storeBias : List Store → List ℚ → List (ℕ × ℚ) × List ℚ
  | [], s => ([], s)
  | st :: rest, s =>
    let (b, s1) := uniformD (7/10) (13/10) s
    let (r, s2) := storeBias rest s1
    ((st.store_id, b) :: r, s2)

/-- Lookup in a dict built by successive insertion: the last binding wins. -/
def lookupLastBias (l : List (ℕ × ℚ)) (k : ℕ) : Option ℚ :=
  (l.reverse.find? (fun e => e.1 == k)).map (·.2)

/-- Threaded state of the order/item loop: the local `Random(seed+777)`
stream, the module-global stream (used only by `zipf_like_index`), the order
counter, and the accumulated rows. -/
structure OIState where
  ls : List ℚ
  gs : List ℚ
  counter : ℕ
  orders : List Order
  items : List OrderItem
  deriving Repr, DecidableEq

/-- One line item: a product picked via the zipf transform of the shuffled
catalog from the global stream, then the quantity from the local stream. -/
def lineStep (products : List Product) (productOrder : List ℕ) (oid : String)
    (ln : ℕ) (st : OIState) : Option OIState :=
  let zb := zipfDraw products.length st.gs
  match pyIdx productOrder zb.1 with
  | none => none
  | some poi =>
    match products[poi]? with
    | none => none
    | some p1 =>
      match pyIdx products ((p1.product_id : ℤ) - 1) with
      | none => none
      | some prod =>
        let qd := randomU st.ls
        let qr := if qd.1 < 3/4 then ((1 : ℤ), qd.2) else randintD 2 5 qd.2
        let item : OrderItem :=
          { order_id := oid, line_number := ln, product_id := p1.product_id,
            qty := qr.1, unit_price := prod.base_price,
            extended_price := priceRound (prod.base_price * (qr.1 : ℚ)) }
        some { st with gs := zb.2, ls := qr.2, items := st.items ++ [item] }

/-- The basket loop `for line_no in range(1, basket_size + 1)`. -/
def basketLines (products : List Product) (productOrder : List ℕ) (oid : String)
    (basket : ℕ) (st : OIState) : Option OIState :=
  (List.range' 1 basket).foldlM
    (fun st2 ln => lineStep products productOrder oid ln st2) st

/-- One sampled order: the counter is consumed even when the store-bias
rejection skips the order (`continue` happens after `order_counter += 1`). -/
def orderStep (stores : List Store) (customers : List Customer)
    (products : List Product) (productOrder : List ℕ) (biasL : List (ℕ × ℚ))
    (seed : ℕ) (t : ℤ) (st : OIState) : Option OIState :=
  let counter1 := st.counter + 1
  let oid := orderIdStr seed counter1
  let sr := chooseL stores st.ls
  match sr.1 with
  | none => none
  | some store =>
    let q2d := randomU sr.2
    match lookupLastBias biasL store.store_id with
    | none => none
    | some bias =>
      if bias < q2d.1 then some { st with ls := q2d.2, counter := counter1 }
      else
        let cr := chooseL customers q2d.2
        match cr.1 with
        | none => none
        | some cust =>
          let wp := weightedPick payTypesW cr.2
          let g1d := gaussD (1/20) (3/100) wp.2
          let od0 := round2 (max 0 g1d.1)
          let q3d := randomU g1d.2
          let od := if q3d.1 < 3/5 then min od0 (1/4) else 0
          let order : Order :=
            { order_id := oid, store_id := store.store_id,
              customer_id := cust.customer_id, order_ts := t,
              payment_type := wp.1, discount_pct := od }
          let g2d := gaussD 1 1 q3d.2
          let basket : ℕ := (min (max 1 (1 + truncInt (|g2d.1| * 2))) 8).toNat
          let st3 : OIState :=
            { st with ls := g2d.2, counter := counter1, orders := st.orders ++ [order] }
          basketLines products productOrder oid basket st3

/-- One minute of the order walk: the geometric approximate-Poisson count,
then that many order attempts. -/
def minuteStep (stores : List Store) (customers : List Customer)
    (products : List Product) (productOrder : List ℕ) (biasL : List (ℕ × ℚ))
    (seed : ℕ) (basePerMin : ℚ) (sinp : ℚ → ℚ) (t : ℤ) (st : OIState) :
    Option OIState :=
  let expMin := basePerMin * diurnalMult sinp t * weekendMult t
  let p := expMin / (1 + expMin)
  let kr := geometricD p st.ls
  (List.range kr.1).foldlM
    (fun st2 _ => orderStep stores customers products productOrder biasL seed t st2)
    { st with ls := kr.2 }

/-- Source `gen_orders_and_items`.  `ls` is the stream of the locally seeded
`random.Random(seed + 777)`; `gs` is the module-global stream consumed by
`zipf_like_index`, whose remainder is returned for the rest of the run. -/
def genOrdersAndItems (stores : List Store) (customers : List Customer)
    (products : List Product) (startDt endDt : ℤ) (ordersEstimate : ℕ)
    (seed : ℕ) (ls gs : List ℚ) (sinp : ℚ → ℚ) :
    Option (List Order × List OrderItem × List ℚ) :=
  let po := shuffleL (List.range products.length) ls
  let sb := storeBias stores po.2
  let totalMinutes : ℤ := endDt - startDt
  let basePerMin : ℚ := max (1/1000000) ((ordersEstimate : ℚ) / ((max 1 totalMinutes : ℤ) : ℚ))
  let init : OIState := { ls := sb.2, gs := gs, counter := 0, orders := [], items := [] }
  match (List.range (endDt + 1 - startDt).toNat).foldlM
      (fun st (i : ℕ) => minuteStep stores customers products po.1 sb.1 seed
        basePerMin sinp (startDt + (i : ℤ)) st) init with
  | none => none
  | some st => some (st.orders, st.items, st.gs)

/-! ## Discount post-processor -/

/-- The `order_map` dict comprehension: the last order with a given id wins. -/
def lookupLastOrder (orders : List Order) (oid : String) : Option Order :=
  orders.reverse.find? (fun o => o.order_id == oid)

/-- The `products_by_id` dict comprehension. -/
def productsById (products : List Product) (pid : ℕ) : Option Product :=
  products.reverse.find? (fun p => p.product_id == pid)

/-- One line item of `apply_discounts_with_promotions`: order-level discount
first, then the promotion active on the order's date, rounded once at the
end; `none` models the `KeyError` of a missing order or product. -/
def applyItem (orders : List Order) (pmap : ℕ → Option Product)
    (pidx : ℕ → List (ℤ × ℤ × ℚ)) (it : OrderItem) : Option OrderItem :=
  match lookupLastOrder orders it.order_id, pmap it.product_id with
  | some o, some p =>
    let afterOrder := p.base_price * (1 - o.discount_pct)
    let finalUnit := priceRound (afterOrder * (1 - isPromoActive it.product_id o.order_ts pidx))
    some { it with unit_price := finalUnit,
                   extended_price := priceRound (finalUnit * it.qty) }
  | _, _ => none

/-- Sequential fallible traversal: stop at the first failure (a raised
exception aborts the whole loop). -/
def traverseO {α β : Type} (f : α → Option β) : List α → Option (List β)
  | [] => some []
  | a :: t =>
    match f a, traverseO f t with
    | some b, some bs => some (b :: bs)
    | _, _ => none

/-- Source `apply_discounts_with_promotions`: the in-place mutation of the
items is modelled by returning the updated list. -/
def applyDiscountsWithPromotions (orders : List Order) (items : List OrderItem)
    (pmap : ℕ → Option Product) (pidx : ℕ → List (ℤ × ℤ × ℚ)) :
    Option (List OrderItem) :=
  traverseO (applyItem orders pmap pidx) items

/-! ## Full pipeline -/

/-- The seven output tables of one run. -/
structure Tables where
  stores : List Store
  products : List Product
  customers : List Customer
  promotions : List Promotion
  orders : List Order
  order_items : List OrderItem
  inventory_snapshots : List InventorySnapshot
  deriving Repr, DecidableEq

/-- The generation phase of `main` for a fixed seed, scale and window:
`mt seed` is the module-global stream produced by `random.seed(seed)` and
`mt (seed + 777)` the stream of the local `Random(seed + 777)`; `now` is the
wall-clock reading used by `gen_customers`; `sinp` the sine oracle.  The
global stream threads through the generators in program order. -/
def runAll (mt : ℕ → List ℚ) (sinp : ℚ → ℚ) (now : ℤ) (seed : ℕ)
    (scale : Scale) (startD : ℤ) (days : ℕ) : Option Tables :=
  let sg := genStores scale.stores startD (mt seed)
  let pg := genProducts scale.products sg.2
  let cg := genCustomers scale.customers now pg.2
  let endD : ℤ := startD + (days : ℤ) - 1
  let prg := genPromotions pg.1 startD endD cg.2
  match genOrdersAndItems sg.1 cg.1 pg.1 (startD * 1440) (endD * 1440 + 1439)
      scale.orders_estimate seed (mt (seed + 777)) prg.2 sinp with
  | none => none
  | some r =>
    match applyDiscountsWithPromotions r.1 r.2.1 (productsById pg.1)
        (promoLookup prg.1) with
    | none => none
    | some items2 =>
      some { stores := sg.1, products := pg.1, customers := cg.1,
             promotions := prg.1, orders := r.1, order_items := items2,
             inventory_snapshots :=
               (genInventorySnapshots sg.1 pg.1 startD endD r.2.2).1 }

/-! ## Derived notions used by the verification -/

/-- A price that is an exact multiple of 1/100 (two decimal places). -/
def twoDec (q : ℚ) : Prop := (q * 100).den = 1

/-- Decode a decimal character string back to a natural number; a left
inverse of the zero-padded rendering used in order ids. -/
def decodeDec (cs : List Char) : ℕ :=
  cs.foldl (fun a c => a * 10 + (c.toNat - 48)) 0

/-- The line items carrying a given order id. -/
def itemsOf (oid : String) (items : List OrderItem) : List OrderItem :=
  items.filter (fun it => it.order_id == oid)

/-- Loop invariant of the order/item generator: every order id encodes a
counter value at most the current one, order discounts lie in `[0, 1/4]`,
item quantities are at least 1, and the items of each generated order are a
basket of 1 to 8 lines numbered `1..k`. -/
def OIInv (seed : ℕ) (st : OIState) : Prop :=
  (∀ o ∈ st.orders, ∃ c, 1 ≤ c ∧ c ≤ st.counter ∧ o.order_id = orderIdStr seed c ∧
    0 ≤ o.discount_pct ∧ o.discount_pct ≤ 1/4) ∧
  (∀ it ∈ st.items, (∃ c, 1 ≤ c ∧ c ≤ st.counter ∧ it.order_id = orderIdStr seed c) ∧
    1 ≤ it.qty) ∧
  (∀ o ∈ st.orders, ∃ k, 1 ≤ k ∧ k ≤ 8 ∧
    (itemsOf o.order_id st.items).map (·.line_number) = List.range' 1 k)

/-- The six output tables that do not depend on the wall clock. -/
def dropCustomers (t : Tables) :
    List Store × List Product × List Promotion × List Order × List OrderItem ×
    List InventorySnapshot :=
  (t.stores, t.products, t.promotions, t.orders, t.order_items,
   t.inventory_snapshots)

/-! ## Concrete inputs used by witnesses and counterexamples -/

/-- A concrete product. -/
def demoProduct : Product :=
  { product_id := 1, sku := "SKU00001", name := "Demo Beverages 10",
    category := "Beverages", brand := "SparkleCo", base_price := 10 }

/-- A second concrete product. -/
def demoProductB : Product :=
  { product_id := 2, sku := "SKU00002", name := "Demo Snacks 11",
    category := "Snacks", brand := "CrunchLabs", base_price := 20 }

/-- A concrete store. -/
def demoStore : Store :=
  { store_id := 1, name := "Store 001", region := "West", city := "Seattle",
    latitude := 47, longitude := -122, opened_date := -100 }

/-- A concrete customer. -/
def demoCustomer : Customer :=
  { customer_id := 1, segment := "casual", signup_ts := -1000,
    home_region := "West", home_city := "Seattle" }

/-- A concrete order with a 10% order-level discount. -/
def demoOrder : Order :=
  { order_id := "A", store_id := 1, customer_id := 1, order_ts := 0,
    payment_type := "card", discount_pct := 1/10 }

/-- A concrete provisional line item of `demoOrder`. -/
def demoItem : OrderItem :=
  { order_id := "A", line_number := 1, product_id := 1, qty := 2,
    unit_price := 10, extended_price := 20 }

/-- A products-by-id map holding only `demoProduct`. -/
def demoPmap : ℕ → Option Product := productsById [demoProduct]

/-- An empty promotion index. -/
def demoPidx : ℕ → List (ℤ × ℤ × ℚ) := promoLookup []

/-- A local stream driving exactly one order with a one-line basket. -/
def demoLocalStream : List ℚ := [0, 1/2, 0, 9/10, 0, 0, 0, 0, 0, 0, 0, 0]

/-- Sine oracle that is identically zero (a legal sine abstraction). -/
def sinZero : ℚ → ℚ := fun _ => 0

/-- A tiny scale tier: the one customer makes the clock dependence visible. -/
def demoScale : Scale := { stores := 0, products := 0, customers := 1, orders_estimate := 0 }

/-- Exhausted pseudo-random streams for every seed. -/
def demoMt : ℕ → List ℚ := fun _ => []

/-- The snapshot produced by a one-store, one-product, one-day inventory run
on an exhausted stream. -/
def demoSnap : InventorySnapshot :=
  { snapshot_ts := 360, store_id := 1, product_id := 1, on_hand := 0,
    on_order := 10, safety_stock := 5, reorder_qty := 10 }

/-- The promotion generated for `demoProduct` over the one-day window
`[0, 0]` on an exhausted stream: its `end_date` overruns the window. -/
def demoPromo : Promotion :=
  { promo_id := "AAAAAAAA", product_id := 1, start_date := 0, end_date := 5,
    promo_type := "BOGO-lite", discount_pct := 1/20 }

/-- `demoItem` after the discount pass: `10 × (1 - 1/10) = 9`, extended
`9 × 2 = 18`. -/
def demoItemApplied : OrderItem :=
  { order_id := "A", line_number := 1, product_id := 1, qty := 2,
    unit_price := 9, extended_price := 18 }

/-- The single order produced by the one-minute demo run (seed 1). -/
def demoOrderOut : Order :=
  { order_id := "O100000001", store_id := 1, customer_id := 1, order_ts := 0,
    payment_type := "card", discount_pct := 0 }

/-- The single line item of `demoOrderOut` under the global stream `[0]`. -/
def demoItemsOut : List OrderItem :=
  [{ order_id := "O100000001", line_number := 1, product_id := 2, qty := 1,
     unit_price := 20, extended_price := 20 }]

/-! ## Basic facts about the drawing and rounding primitives -/

theorem round_rat_mono {a b : ℚ} (h : a ≤ b) : round a ≤ round b := by
  rw [round_eq, round_eq]
  exact Int.floor_le_floor (by linarith)

theorem round2_mono {a b : ℚ} (h : a ≤ b) : round2 a ≤ round2 b := by
  unfold round2
  rw [div_le_div_iff_of_pos_right (by norm_num : (0:ℚ) < 100)]
  exact_mod_cast round_rat_mono (by linarith)

theorem round2_eq_self {q : ℚ} (h : twoDec q) : round2 q = q := by
  unfold twoDec at h
  have h2 : ((q * 100).num : ℚ) = q * 100 := (Rat.den_eq_one_iff _).mp h
  unfold round2
  rw [show q * 100 = ((q * 100).num : ℚ) from h2.symm, round_intCast, h2]
  field_simp

theorem twoDec_round2 (q : ℚ) : twoDec (round2 q) := by
  unfold twoDec round2
  rw [div_mul_cancel₀ _ (by norm_num : (100:ℚ) ≠ 0)]
  exact Rat.den_intCast _

theorem priceRound_eq_round2 {p : ℚ} (h : 1/100 ≤ p) : priceRound p = round2 p := by
  unfold priceRound
  rw [max_eq_left h]

theorem le_priceRound (p : ℚ) : 1/100 ≤ priceRound p := by
  have h1 : round2 (1/100) = 1/100 := by decide
  calc (1/100 : ℚ) = round2 (1/100) := h1.symm
    _ ≤ round2 (max p (1/100)) := round2_mono (le_max_right _ _)

theorem toUnit_bounds (q : ℚ) : 0 ≤ toUnit q ∧ toUnit q < 1 := by
  unfold toUnit
  split
  · next h => exact h
  · norm_num

theorem randomU_fst (s : List ℚ) : (randomU s).1 = toUnit (drawQ s).1 := rfl

theorem randomU_bounds (s : List ℚ) : 0 ≤ (randomU s).1 ∧ (randomU s).1 < 1 := by
  rw [randomU_fst]
  exact toUnit_bounds _

theorem natDraw_lt (q : ℚ) {k : ℕ} (hk : 0 < k) : natDraw q k < k :=
  Nat.mod_lt _ hk

theorem randintD_fst (a b : ℤ) (s : List ℚ) :
    (randintD a b s).1 = a + (natDraw (drawQ s).1 (b - a + 1).toNat : ℤ) := rfl

theorem randintD_bounds {a b : ℤ} (h : a ≤ b) (s : List ℚ) :
    a ≤ (randintD a b s).1 ∧ (randintD a b s).1 ≤ b := by
  rw [randintD_fst]
  have hk : (0:ℕ) < (b - a + 1).toNat := by omega
  have h2 := natDraw_lt (drawQ s).1 hk
  omega

theorem uniformD_fst (a b : ℚ) (s : List ℚ) :
    (uniformD a b s).1 = a + (b - a) * toUnit (drawQ s).1 := rfl

theorem uniformD_bounds {a b : ℚ} (h : a ≤ b) (s : List ℚ) :
    a ≤ (uniformD a b s).1 ∧ (uniformD a b s).1 ≤ b := by
  rw [uniformD_fst]
  have h1 := toUnit_bounds (drawQ s).1
  constructor
  · nlinarith [h1.1, h1.2]
  · nlinarith [h1.1, h1.2]

theorem truncInt_nonneg {q : ℚ} (h : 0 ≤ q) : 0 ≤ truncInt q :=
  Int.tdiv_nonneg (Rat.num_nonneg.mpr h) (by positivity)

theorem truncInt_le_floor {q : ℚ} (h : 0 ≤ q) : truncInt q ≤ ⌊q⌋ := by
  unfold truncInt
  rw [Rat.floor_def, Int.tdiv_eq_ediv (Rat.num_nonneg.mpr h) (by positivity)]

/-! ## Claim C10: zipf-like index -/

/-- Claim C10: for every catalog size `n ≥ 1` and every powered uniform draw
`u ∈ [0,1)` (the value of `r ** (1/(1+s))`, which ranges over `[0,1)` exactly
when `r` does for any skew `s > -1`), `zipf_like_index` returns an index in
`[0, n-1]`; for `n = 0` it returns `-1`, an out-of-range index, rather than
raising. -/
theorem claim_C10_zipf :
    (∀ (n : ℕ) (u : ℚ), 1 ≤ n → 0 ≤ u → u < 1 →
      0 ≤ zipfCore n u ∧ zipfCore n u ≤ (n : ℤ) - 1) ∧
    (∀ u : ℚ, zipfCore 0 u = -1) := by
  constructor
  · intro n u hn hu hu1
    have hn0 : (0:ℚ) < (n:ℚ) := by exact_mod_cast hn
    have hnn : 0 ≤ u * (n:ℚ) := mul_nonneg hu (le_of_lt hn0)
    have hlt : u * (n:ℚ) < (n:ℚ) := by nlinarith
    have hfl : ⌊u * (n:ℚ)⌋ < (n:ℤ) := Int.floor_lt.mpr (by exact_mod_cast hlt)
    have h0 : 0 ≤ truncInt (u * (n:ℚ)) := truncInt_nonneg hnn
    have h1 : truncInt (u * (n:ℚ)) ≤ ⌊u * (n:ℚ)⌋ := truncInt_le_floor hnn
    unfold zipfCore
    have hcond : ¬ ((n:ℤ) ≤ truncInt (u * (n:ℚ))) := by omega
    simp only [hcond, if_false]
    omega
  · intro u
    unfold zipfCore truncInt
    norm_num

/-- Witness for C10 at `n = 3`, `u = 1/2`. -/
theorem claim_C10_zipf_witness :
    (0 ≤ zipfCore 3 (1/2) ∧ zipfCore 3 (1/2) ≤ ((3:ℕ):ℤ) - 1) ∧ zipfCore 0 (1/2) = -1 :=
  ⟨claim_C10_zipf.1 3 (1/2) (by norm_num) (by norm_num) (by norm_num),
   claim_C10_zipf.2 (1/2)⟩

/-! ## Claim C8: inventory snapshot invariants -/

theorem indProps (oh sf r1 r2 : ℤ) :
    (0 < (if oh < sf then 1 else 0) * r1 → oh < sf) ∧
    (sf ≤ oh → (if oh < sf then 1 else 0) * r1 = 0 ∧ (if oh < sf then 1 else 0) * r2 = 0) := by
  by_cases h : oh < sf
  · exact ⟨fun _ => h, fun hge => absurd h (not_lt.mpr hge)⟩
  · rw [if_neg h]
    refine ⟨?_, fun _ => ⟨zero_mul r1, zero_mul r2⟩⟩
    intro hpos
    rw [zero_mul] at hpos
    exact absurd hpos (lt_irrefl 0)

theorem invProducts_mem (snapTs : ℤ) (sid : ℕ) :
    ∀ (ps : List Product) (s : List ℚ),
      ∀ snap ∈ (invProducts snapTs sid ps s).1,
        0 ≤ snap.on_hand ∧ 5 ≤ snap.safety_stock ∧
        (0 < snap.on_order → snap.on_hand < snap.safety_stock) ∧
        (snap.safety_stock ≤ snap.on_hand → snap.on_order = 0 ∧ snap.reorder_qty = 0) := by
  intro ps
  induction ps with
  | nil => intro s snap h; simp [invProducts] at h
  | cons p rest ih =>
    intro s snap h
    simp only [invProducts] at h
    rcases List.mem_cons.mp h with h1 | h1
    · subst h1
      exact ⟨le_max_left _ _, le_max_left _ _, (indProps _ _ _ 0).1, (indProps _ _ _ _).2⟩
    · exact ih _ snap h1

theorem invStores_mem (snapTs : ℤ) (products : List Product) :
    ∀ (stores : List Store) (s : List ℚ),
      ∀ snap ∈ (invStores snapTs products stores s).1,
        0 ≤ snap.on_hand ∧ 5 ≤ snap.safety_stock ∧
        (0 < snap.on_order → snap.on_hand < snap.safety_stock) ∧
        (snap.safety_stock ≤ snap.on_hand → snap.on_order = 0 ∧ snap.reorder_qty = 0) := by
  intro stores
  induction stores with
  | nil => intro s snap h; simp [invStores] at h
  | cons st rest ih =>
    intro s snap h
    simp only [invStores] at h
    rcases List.mem_append.mp h with h1 | h1
    · exact invProducts_mem _ _ _ _ snap h1
    · exact ih _ snap h1

/-- Claim C8: every generated inventory snapshot has nonnegative `on_hand`,
`safety_stock ≥ 5`, `on_order > 0` only below safety stock, and zero
`on_order`/`reorder_qty` at or above safety stock. -/
theorem claim_C8_inventory :
    ∀ (stores : List Store) (products : List Product) (startD endD : ℤ) (s : List ℚ),
      ∀ snap ∈ (genInventorySnapshots stores products startD endD s).1,
        0 ≤ snap.on_hand ∧ 5 ≤ snap.safety_stock ∧
        (0 < snap.on_order → snap.on_hand < snap.safety_stock) ∧
        (snap.safety_stock ≤ snap.on_hand → snap.on_order = 0 ∧ snap.reorder_qty = 0) := by
  intro stores products startD endD s snap hmem
  unfold genInventorySnapshots at hmem
  generalize hdl : List.range (endD - startD + 1).toNat = dl at hmem
  clear hdl
  induction dl generalizing s with
  | nil => simp [invDays] at hmem
  | cons d rest ihd =>
    simp only [invDays] at hmem
    rcases List.mem_append.mp hmem with h1 | h1
    · exact invStores_mem _ _ _ _ snap h1
    · exact ihd _ h1

/-! ## Facts about the discount post-processor -/

theorem upd_order_id (it : OrderItem) (u e : ℚ) :
    ({ it with unit_price := u, extended_price := e } : OrderItem).order_id =
      it.order_id := rfl

theorem upd_product_id (it : OrderItem) (u e : ℚ) :
    ({ it with unit_price := u, extended_price := e } : OrderItem).product_id =
      it.product_id := rfl

theorem upd_qty (it : OrderItem) (u e : ℚ) :
    ({ it with unit_price := u, extended_price := e } : OrderItem).qty = it.qty := rfl

theorem applyItem_eq (orders : List Order) (pmap : ℕ → Option Product)
    (pidx : ℕ → List (ℤ × ℤ × ℚ)) (it : OrderItem) (o : Order) (p : Product)
    (ho : lookupLastOrder orders it.order_id = some o)
    (hp : pmap it.product_id = some p) :
    applyItem orders pmap pidx it = some
      { it with
        unit_price := priceRound (p.base_price * (1 - o.discount_pct) *
          (1 - isPromoActive it.product_id o.order_ts pidx)),
        extended_price := priceRound (priceRound (p.base_price * (1 - o.discount_pct) *
          (1 - isPromoActive it.product_id o.order_ts pidx)) * (it.qty : ℚ)) } := by
  unfold applyItem
  rw [ho, hp]

theorem applyItem_idem (orders : List Order) (pmap : ℕ → Option Product)
    (pidx : ℕ → List (ℤ × ℤ × ℚ)) (it it2 : OrderItem)
    (h : applyItem orders pmap pidx it = some it2) :
    applyItem orders pmap pidx it2 = some it2 := by
  unfold applyItem at h
  cases ho : lookupLastOrder orders it.order_id with
  | none => rw [ho] at h; simp at h
  | some o =>
    cases hp : pmap it.product_id with
    | none => rw [ho, hp] at h; simp at h
    | some p =>
      rw [ho, hp] at h
      simp only [Option.some.injEq] at h
      subst h
      unfold applyItem
      rw [upd_order_id, upd_product_id, ho, hp]

theorem traverseO_some_of_forall {α β : Type} (f : α → Option β) :
    ∀ l : List α, (∀ a ∈ l, ∃ b, f a = some b) → ∃ r, traverseO f l = some r := by
  intro l
  induction l with
  | nil => exact fun _ => ⟨[], rfl⟩
  | cons a t ih =>
    intro h
    obtain ⟨b, hb⟩ := h a (List.mem_cons_self a t)
    obtain ⟨r, hr⟩ := ih (fun x hx => h x (List.mem_cons_of_mem a hx))
    exact ⟨b :: r, by simp [traverseO, hb, hr]⟩

theorem traverseO_forall₂ {α β : Type} (f : α → Option β) :
    ∀ (l : List α) (r : List β), traverseO f l = some r →
      List.Forall₂ (fun a b => f a = some b) l r := by
  intro l
  induction l with
  | nil =>
    intro r h
    simp only [traverseO, Option.some.injEq] at h
    subst h
    exact List.Forall₂.nil
  | cons a t ih =>
    intro r h
    simp only [traverseO] at h
    cases hfa : f a with
    | none => rw [hfa] at h; simp at h
    | some b =>
      rw [hfa] at h
      cases hft : traverseO f t with
      | none => rw [hft] at h; simp at h
      | some bs =>
        rw [hft] at h
        simp only [Option.some.injEq] at h
        subst h
        exact List.Forall₂.cons hfa (ih bs hft)

theorem forall₂_strengthen {α β : Type} {R S : α → β → Prop} {P : α → Prop} :
    ∀ {l : List α} {r : List β}, List.Forall₂ R l r → (∀ a ∈ l, P a) →
      (∀ a b, P a → R a b → S a b) → List.Forall₂ S l r := by
  intro l r h
  induction h with
  | nil => exact fun _ _ => List.Forall₂.nil
  | cons hR hrest ih =>
    intro hp himp
    exact List.Forall₂.cons (himp _ _ (hp _ (List.mem_cons_self _ _)) hR)
      (ih (fun a ha => hp a (List.mem_cons_of_mem _ ha)) himp)

theorem applyDiscounts_idem (orders : List Order) (pmap : ℕ → Option Product)
    (pidx : ℕ → List (ℤ × ℤ × ℚ)) :
    ∀ (items items2 : List OrderItem),
      applyDiscountsWithPromotions orders items pmap pidx = some items2 →
      applyDiscountsWithPromotions orders items2 pmap pidx = some items2 := by
  intro items
  unfold applyDiscountsWithPromotions
  induction items with
  | nil =>
    intro items2 h
    simp only [traverseO, Option.some.injEq] at h
    subst h
    rfl
  | cons a t ih =>
    intro items2 h
    simp only [traverseO] at h
    cases hfa : applyItem orders pmap pidx a with
    | none => rw [hfa] at h; simp at h
    | some b =>
      rw [hfa] at h
      cases hft : traverseO (applyItem orders pmap pidx) t with
      | none => rw [hft] at h; simp at h
      | some bs =>
        rw [hft] at h
        simp only [Option.some.injEq] at h
        subst h
        simp only [traverseO, applyItem_idem orders pmap pidx a b hfa, ih bs hft]

/-! ## Claim C5: the post-processor is idempotent -/

/-- Claim C5 (amended): a second invocation of the discount post-processor is
a safe no-op — it recomputes every price from the retained `base_price` in
`products_by_id`, not from the already-discounted `unit_price`, so it returns
exactly the once-processed line items. -/
theorem claim_C5_amended :
    ∀ (orders : List Order) (items : List OrderItem) (pmap : ℕ → Option Product)
      (pidx : ℕ → List (ℤ × ℤ × ℚ)) (items2 : List OrderItem),
      applyDiscountsWithPromotions orders items pmap pidx = some items2 →
      applyDiscountsWithPromotions orders items2 pmap pidx = some items2 :=
  fun orders items pmap pidx items2 h => applyDiscounts_idem orders pmap pidx items items2 h

/-- Counterexample for C5 as stated: there is no input at all on which a
second application of the post-processor changes the line items. -/
theorem claim_C5_counterexample :
    ¬ ∃ (orders : List Order) (items : List OrderItem) (pmap : ℕ → Option Product)
        (pidx : ℕ → List (ℤ × ℤ × ℚ)) (r1 r2 : List OrderItem),
      applyDiscountsWithPromotions orders items pmap pidx = some r1 ∧
      applyDiscountsWithPromotions orders r1 pmap pidx = some r2 ∧ r2 ≠ r1 := by
  rintro ⟨orders, items, pmap, pidx, r1, r2, h1, h2, hne⟩
  have h3 := applyDiscounts_idem orders pmap pidx items r1 h1
  rw [h3] at h2
  exact hne (Option.some.inj h2).symm

/-- Witness for the amended C5 on a concrete order and line item. -/
theorem claim_C5_amended_witness :
    applyDiscountsWithPromotions [demoOrder] [demoItemApplied] demoPmap demoPidx =
      some [demoItemApplied] :=
  claim_C5_amended [demoOrder] [demoItem] demoPmap demoPidx [demoItemApplied] (by decide)

/-! ## Claims C6 and C1: discount arithmetic -/

theorem unit_le_base {b od pd : ℚ} (hb : 1/100 ≤ b) (hb2 : twoDec b)
    (hod : 0 ≤ od) (hod1 : od ≤ 1) (hpd : 0 ≤ pd) (hpd1 : pd ≤ 1) :
    priceRound (b * (1 - od) * (1 - pd)) ≤ b ∧
    (od = 0 → pd = 0 → priceRound (b * (1 - od) * (1 - pd)) = b) := by
  constructor
  · have h2 : 0 ≤ pd * (1 - od) := mul_nonneg hpd (by linarith)
    have h3 : 0 ≤ b * (od + pd * (1 - od)) :=
      mul_nonneg (by linarith) (by linarith)
    have key : b * (1 - od) * (1 - pd) = b - b * (od + pd * (1 - od)) := by ring
    have hx : b * (1 - od) * (1 - pd) ≤ b := by rw [key]; linarith
    calc priceRound (b * (1 - od) * (1 - pd))
        ≤ round2 b := round2_mono (max_le hx hb)
      _ = b := round2_eq_self hb2
  · intro h1 h2
    subst h1; subst h2
    rw [show b * (1 - 0) * (1 - 0) = b by ring, priceRound_eq_round2 hb,
      round2_eq_self hb2]

theorem c1_unit_formula {b od pd : ℚ} (hb : 9/10 ≤ b) (hod : 0 ≤ od) (hod1 : od ≤ 1/4)
    (hpd : 0 ≤ pd) (hpd1 : pd ≤ 3/10) :
    priceRound (b * (1 - od) * (1 - pd)) = round2 (b * (1 - od) * (1 - pd)) ∧
    47/100 ≤ priceRound (b * (1 - od) * (1 - pd)) := by
  have hx : 189/400 ≤ b * (1 - od) * (1 - pd) := by
    have e1 : (3/4 : ℚ) ≤ 1 - od := by linarith
    have e2 : (7/10 : ℚ) ≤ 1 - pd := by linarith
    have p1 : (9/10 : ℚ) * (3/4) ≤ b * (1 - od) :=
      mul_le_mul hb e1 (by norm_num) (by linarith)
    have p2 : ((9/10 : ℚ) * (3/4)) * (7/10) ≤ (b * (1 - od)) * (1 - pd) :=
      mul_le_mul p1 e2 (by norm_num) (mul_nonneg (by linarith) (by linarith))
    linarith
  have h1 : priceRound (b * (1 - od) * (1 - pd)) = round2 (b * (1 - od) * (1 - pd)) :=
    priceRound_eq_round2 (by linarith)
  refine ⟨h1, ?_⟩
  rw [h1]
  have h2 := round2_mono hx
  rw [show round2 (189/400) = 47/100 by decide] at h2
  exact h2

theorem c1_ext_formula {u : ℚ} (hu : 47/100 ≤ u) {qty : ℤ} (hq : 1 ≤ qty) :
    priceRound (u * (qty : ℚ)) = round2 (u * (qty : ℚ)) := by
  apply priceRound_eq_round2
  have hq1 : (1:ℚ) ≤ (qty : ℚ) := by exact_mod_cast hq
  nlinarith

/-- Claim C6: after the post-processing pass, every line item's `unit_price`
is at most the `base_price` of its referenced product, with equality exactly
recovered when both the order-level and the promotional discount are 0.  The
hypotheses record what the pipeline guarantees for the generated data: each
item's order and product resolve, discounts lie in `[0, 1]`, and generated
base prices are two-decimal values `≥ 0.01`. -/
theorem claim_C6_price_bound :
    ∀ (orders : List Order) (items : List OrderItem) (pmap : ℕ → Option Product)
      (pidx : ℕ → List (ℤ × ℤ × ℚ)),
      (∀ it ∈ items, ∃ o, lookupLastOrder orders it.order_id = some o ∧
        0 ≤ o.discount_pct ∧ o.discount_pct ≤ 1) →
      (∀ it ∈ items, ∃ p, pmap it.product_id = some p ∧ 1/100 ≤ p.base_price ∧
        twoDec p.base_price) →
      (∀ pid ts, 0 ≤ isPromoActive pid ts pidx ∧ isPromoActive pid ts pidx ≤ 1) →
      ∃ items2, applyDiscountsWithPromotions orders items pmap pidx = some items2 ∧
        List.Forall₂ (fun it it2 =>
          ∀ o p, lookupLastOrder orders it.order_id = some o →
            pmap it.product_id = some p →
            it2.unit_price ≤ p.base_price ∧
            (o.discount_pct = 0 →
              isPromoActive it.product_id o.order_ts pidx = 0 →
              it2.unit_price = p.base_price)) items items2 := by
  intro orders items pmap pidx hlk hp hd
  obtain ⟨items2, h2⟩ := traverseO_some_of_forall (applyItem orders pmap pidx) items
    (by
      intro it hit
      obtain ⟨o, ho, _, _⟩ := hlk it hit
      obtain ⟨p, hpp, _, _⟩ := hp it hit
      exact ⟨_, applyItem_eq orders pmap pidx it o p ho hpp⟩)
  refine ⟨items2, h2, ?_⟩
  have hfa := traverseO_forall₂ (applyItem orders pmap pidx) items items2 h2
  refine forall₂_strengthen
    (P := fun it => (∃ o, lookupLastOrder orders it.order_id = some o ∧
      0 ≤ o.discount_pct ∧ o.discount_pct ≤ 1) ∧
      (∃ p, pmap it.product_id = some p ∧ 1/100 ≤ p.base_price ∧ twoDec p.base_price))
    hfa (fun it hit => ⟨hlk it hit, hp it hit⟩) ?_
  rintro it it2 ⟨⟨o, ho, hod0, hod1⟩, ⟨p, hpp, hb1, hb2⟩⟩ hr
  intro o2 p2 ho2 hp2
  rw [ho] at ho2
  rw [hpp] at hp2
  obtain rfl : o = o2 := Option.some.inj ho2
  obtain rfl : p = p2 := Option.some.inj hp2
  rw [applyItem_eq orders pmap pidx it o p ho hpp] at hr
  obtain rfl := Option.some.inj hr
  have hdb := hd it.product_id o.order_ts
  have := unit_le_base hb1 hb2 hod0 hod1 hdb.1 hdb.2
  exact ⟨this.1, this.2⟩

/-- Witness for C6 on a concrete order, item and product map. -/
theorem claim_C6_price_bound_witness :
    ∃ items2,
      applyDiscountsWithPromotions [demoOrder] [demoItem] demoPmap demoPidx = some items2 ∧
      List.Forall₂ (fun it it2 =>
        ∀ o p, lookupLastOrder [demoOrder] it.order_id = some o →
          demoPmap it.product_id = some p →
          it2.unit_price ≤ p.base_price ∧
          (o.discount_pct = 0 →
            isPromoActive it.product_id o.order_ts demoPidx = 0 →
            it2.unit_price = p.base_price)) [demoItem] items2 :=
  claim_C6_price_bound [demoOrder] [demoItem] demoPmap demoPidx
    (by
      intro it hit
      rw [List.mem_singleton] at hit
      subst hit
      exact ⟨demoOrder, by decide, by norm_num [demoOrder], by norm_num [demoOrder]⟩)
    (by
      intro it hit
      rw [List.mem_singleton] at hit
      subst hit
      refine ⟨demoProduct, by decide, by norm_num [demoProduct], ?_⟩
      show ((demoProduct.base_price * 100).den = 1)
      decide)
    (by
      intro pid ts
      show (0 ≤ isPromoActive pid ts demoPidx ∧ isPromoActive pid ts demoPidx ≤ 1)
      unfold isPromoActive demoPidx promoLookup
      simp)

/-- Claim C1: after one run of the post-processor over data with the shape
the generator guarantees (resolving lookups, order discount in `[0, 1/4]`,
promotional discount in `[0, 3/10]`, base price `≥ 0.9`, quantity `≥ 1`),
every line item satisfies
`unit_price = round2(base_price * (1 - order_disc) * (1 - promo_disc))` with
the promotional discount the one active at the order's timestamp, and
`extended_price = round2(unit_price * qty)`. -/
theorem claim_C1_discount_formula :
    ∀ (orders : List Order) (items : List OrderItem) (pmap : ℕ → Option Product)
      (pidx : ℕ → List (ℤ × ℤ × ℚ)),
      (∀ it ∈ items, 1 ≤ it.qty) →
      (∀ it ∈ items, ∃ o, lookupLastOrder orders it.order_id = some o ∧
        0 ≤ o.discount_pct ∧ o.discount_pct ≤ 1/4) →
      (∀ it ∈ items, ∃ p, pmap it.product_id = some p ∧ 9/10 ≤ p.base_price) →
      (∀ pid ts, 0 ≤ isPromoActive pid ts pidx ∧ isPromoActive pid ts pidx ≤ 3/10) →
      ∃ items2, applyDiscountsWithPromotions orders items pmap pidx = some items2 ∧
        List.Forall₂ (fun it it2 =>
          ∀ o p, lookupLastOrder orders it.order_id = some o →
            pmap it.product_id = some p →
            it2.unit_price = round2 (p.base_price * (1 - o.discount_pct) *
              (1 - isPromoActive it.product_id o.order_ts pidx)) ∧
            it2.extended_price = round2 (it2.unit_price * (it.qty : ℚ))) items items2 := by
  intro orders items pmap pidx hq hlk hp hd
  obtain ⟨items2, h2⟩ := traverseO_some_of_forall (applyItem orders pmap pidx) items
    (by
      intro it hit
      obtain ⟨o, ho, _, _⟩ := hlk it hit
      obtain ⟨p, hpp, _⟩ := hp it hit
      exact ⟨_, applyItem_eq orders pmap pidx it o p ho hpp⟩)
  refine ⟨items2, h2, ?_⟩
  have hfa := traverseO_forall₂ (applyItem orders pmap pidx) items items2 h2
  refine forall₂_strengthen
    (P := fun it => 1 ≤ it.qty ∧ (∃ o, lookupLastOrder orders it.order_id = some o ∧
      0 ≤ o.discount_pct ∧ o.discount_pct ≤ 1/4) ∧
      (∃ p, pmap it.product_id = some p ∧ 9/10 ≤ p.base_price))
    hfa (fun it hit => ⟨hq it hit, hlk it hit, hp it hit⟩) ?_
  rintro it it2 ⟨hq1, ⟨o, ho, hod0, hod1⟩, ⟨p, hpp, hb⟩⟩ hr
  intro o2 p2 ho2 hp2
  rw [ho] at ho2
  rw [hpp] at hp2
  obtain rfl : o = o2 := Option.some.inj ho2
  obtain rfl : p = p2 := Option.some.inj hp2
  rw [applyItem_eq orders pmap pidx it o p ho hpp] at hr
  obtain rfl := Option.some.inj hr
  have hdb := hd it.product_id o.order_ts
  obtain ⟨hu1, hu2⟩ := c1_unit_formula hb hod0 hod1 hdb.1 hdb.2
  exact ⟨hu1, c1_ext_formula hu2 hq1⟩

/-- Witness for C1 on a concrete order, item and product map. -/
theorem claim_C1_discount_formula_witness :
    ∃ items2,
      applyDiscountsWithPromotions [demoOrder] [demoItem] demoPmap demoPidx = some items2 ∧
      List.Forall₂ (fun it it2 =>
        ∀ o p, lookupLastOrder [demoOrder] it.order_id = some o →
          demoPmap it.product_id = some p →
          it2.unit_price = round2 (p.base_price * (1 - o.discount_pct) *
            (1 - isPromoActive it.product_id o.order_ts demoPidx)) ∧
          it2.extended_price = round2 (it2.unit_price * (it.qty : ℚ))) [demoItem] items2 :=
  claim_C1_discount_formula [demoOrder] [demoItem] demoPmap demoPidx
    (by
      intro it hit
      rw [List.mem_singleton] at hit
      subst hit
      norm_num [demoItem])
    (by
      intro it hit
      rw [List.mem_singleton] at hit
      subst hit
      exact ⟨demoOrder, by decide, by norm_num [demoOrder], by norm_num [demoOrder]⟩)
    (by
      intro it hit
      rw [List.mem_singleton] at hit
      subst hit
      exact ⟨demoProduct, by decide, by norm_num [demoProduct]⟩)
    (by
      intro pid ts
      show (0 ≤ isPromoActive pid ts demoPidx ∧ isPromoActive pid ts demoPidx ≤ 3/10)
      unfold isPromoActive demoPidx promoLookup
      norm_num)

/-! ## Claim C2: determinism and the wall clock -/

theorem genCustomersAux_ids (now : ℤ) :
    ∀ (ids : List ℕ) (s : List ℚ),
      ((genCustomersAux now ids s).1).map (·.customer_id) = ids := by
  intro ids
  induction ids with
  | nil => intro s; simp [genCustomersAux]
  | cons i rest ih => intro s; simp [genCustomersAux, ih]

theorem genCustomersAux_snd (now1 now2 : ℤ) :
    ∀ (ids : List ℕ) (s : List ℚ),
      (genCustomersAux now1 ids s).2 = (genCustomersAux now2 ids s).2 := by
  intro ids
  induction ids with
  | nil => intro s; rfl
  | cons i rest ih => intro s; simp only [genCustomersAux]; rw [ih]

theorem foldlM_cons_opt {σ α : Type} (f : σ → α → Option σ) (st : σ) (a : α)
    (t : List α) :
    List.foldlM f st (a :: t) = (f st a).bind (fun s2 => List.foldlM f s2 t) := by
  simp [List.foldlM_cons]

theorem foldlM_congr {σ α : Type} {f g : σ → α → Option σ}
    (h : ∀ st x, f st x = g st x) :
    ∀ (l : List α) (st : σ), List.foldlM f st l = List.foldlM g st l := by
  intro l
  induction l with
  | nil => intro st; rfl
  | cons a t ih =>
    intro st
    rw [foldlM_cons_opt, foldlM_cons_opt, h]
    cases g st a with
    | none => rfl
    | some s2 => simp only [Option.some_bind]; exact ih s2

theorem chooseL_congr {α β : Type} (g : α → β) {l1 l2 : List α}
    (h : l1.map g = l2.map g) (s : List ℚ) :
    ((chooseL l1 s).1).map g = ((chooseL l2 s).1).map g := by
  have hlen : l1.length = l2.length := by
    have := congrArg List.length h
    simpa using this
  simp only [chooseL, chooseIdx]
  rw [hlen, ← List.getElem?_map, ← List.getElem?_map, h]

theorem orderStep_congr (stores : List Store) (products : List Product)
    (productOrder : List ℕ) (biasL : List (ℕ × ℚ)) (seed : ℕ) (t : ℤ)
    {c1 c2 : List Customer}
    (h : c1.map (·.customer_id) = c2.map (·.customer_id)) (st : OIState) :
    orderStep stores c1 products productOrder biasL seed t st =
    orderStep stores c2 products productOrder biasL seed t st := by
  simp only [orderStep]
  split
  · rfl
  · split
    · rfl
    · split
      · rfl
      · have hid := chooseL_congr (fun c : Customer => c.customer_id) h
          (randomU (chooseL stores st.ls).2).2
        cases hc1 : (chooseL c1 (randomU (chooseL stores st.ls).2).2).1 with
        | none =>
          rw [hc1] at hid
          cases hc2 : (chooseL c2 (randomU (chooseL stores st.ls).2).2).1 with
          | none => rfl
          | some cust2 => rw [hc2] at hid; exact Option.noConfusion hid
        | some cust1 =>
          rw [hc1] at hid
          cases hc2 : (chooseL c2 (randomU (chooseL stores st.ls).2).2).1 with
          | none => rw [hc2] at hid; exact Option.noConfusion hid
          | some cust2 =>
            rw [hc2] at hid
            have hid2 : cust1.customer_id = cust2.customer_id := Option.some.inj hid
            have hstream : (chooseL c1 (randomU (chooseL stores st.ls).2).2).2 =
                (chooseL c2 (randomU (chooseL stores st.ls).2).2).2 := rfl
            dsimp only
            rw [hid2, hstream]

theorem minuteStep_congr (stores : List Store) (products : List Product)
    (productOrder : List ℕ) (biasL : List (ℕ × ℚ)) (seed : ℕ)
    (basePerMin : ℚ) (sinp : ℚ → ℚ) (t : ℤ) {c1 c2 : List Customer}
    (h : c1.map (·.customer_id) = c2.map (·.customer_id)) (st : OIState) :
    minuteStep stores c1 products productOrder biasL seed basePerMin sinp t st =
    minuteStep stores c2 products productOrder biasL seed basePerMin sinp t st := by
  unfold minuteStep
  exact foldlM_congr (fun st2 x => orderStep_congr stores products productOrder
    biasL seed t h st2) _ _

theorem genOrdersAndItems_congr (stores : List Store) (products : List Product)
    (startDt endDt : ℤ) (est seed : ℕ) (ls gs : List ℚ) (sinp : ℚ → ℚ)
    {c1 c2 : List Customer}
    (h : c1.map (·.customer_id) = c2.map (·.customer_id)) :
    genOrdersAndItems stores c1 products startDt endDt est seed ls gs sinp =
    genOrdersAndItems stores c2 products startDt endDt est seed ls gs sinp := by
  simp only [genOrdersAndItems]
  rw [foldlM_congr (fun st2 (i : ℕ) => minuteStep_congr stores products
    (shuffleL (List.range products.length) ls).1
    (storeBias stores (shuffleL (List.range products.length) ls).2).1 seed
    (max (1/1000000) ((est : ℚ) / ((max 1 (endDt - startDt) : ℤ) : ℚ))) sinp
    (startDt + (i : ℤ)) h st2)]

/-- Claim C2 (amended): with fixed pseudo-random streams and a fixed sine
oracle, every output table other than `customers` is a function of
(seed, scale, window) alone — in particular independent of the wall clock.
Full byte-identity of all seven tables additionally requires an identical
`datetime.now()` reading, because `gen_customers` derives `signup_ts` from
the clock. -/
theorem claim_C2_amended :
    ∀ (mt : ℕ → List ℚ) (sinp : ℚ → ℚ) (seed : ℕ) (scale : Scale) (startD : ℤ)
      (days : ℕ) (now1 now2 : ℤ),
      Option.map dropCustomers (runAll mt sinp now1 seed scale startD days) =
      Option.map dropCustomers (runAll mt sinp now2 seed scale startD days) := by
  intro mt sinp seed scale startD days now1 now2
  simp only [runAll, genCustomers]
  rw [genCustomersAux_snd now1 now2]
  rw [genOrdersAndItems_congr _ _ _ _ _ _ _ _ sinp
    (show ((genCustomersAux now1 (List.range' 1 scale.customers)
        (genProducts scale.products (genStores scale.stores startD (mt seed)).2).2).1).map
        (·.customer_id) =
      ((genCustomersAux now2 (List.range' 1 scale.customers)
        (genProducts scale.products (genStores scale.stores startD (mt seed)).2).2).1).map
        (·.customer_id) by
      rw [genCustomersAux_ids, genCustomersAux_ids])]
  cases hG : genOrdersAndItems (genStores scale.stores startD (mt seed)).1
      (genCustomersAux now2 (List.range' 1 scale.customers)
        (genProducts scale.products (genStores scale.stores startD (mt seed)).2).2).1
      (genProducts scale.products (genStores scale.stores startD (mt seed)).2).1
      (startD * 1440) ((startD + (days : ℤ) - 1) * 1440 + 1439)
      scale.orders_estimate seed (mt (seed + 777))
      (genPromotions (genProducts scale.products (genStores scale.stores startD (mt seed)).2).1
        startD (startD + (days : ℤ) - 1)
        (genCustomersAux now2 (List.range' 1 scale.customers)
          (genProducts scale.products (genStores scale.stores startD (mt seed)).2).2).2).2
      sinp with
  | none => rfl
  | some r =>
    simp only
    cases applyDiscountsWithPromotions r.1 r.2.1
        (productsById (genProducts scale.products (genStores scale.stores startD (mt seed)).2).1)
        (promoLookup (genPromotions
          (genProducts scale.products (genStores scale.stores startD (mt seed)).2).1
          startD (startD + (days : ℤ) - 1)
          (genCustomersAux now2 (List.range' 1 scale.customers)
            (genProducts scale.products (genStores scale.stores startD (mt seed)).2).2).2).1) with
    | none => rfl
    | some items2 => rfl

/-- Counterexample for C2: identical (seed, scale, window) and identical
streams, but two wall-clock readings one day apart, give different output
(the customers' `signup_ts` shifts with the clock). -/
theorem claim_C2_counterexample :
    runAll demoMt sinZero 0 1 demoScale 0 0 ≠ runAll demoMt sinZero 1440 1 demoScale 0 0 := by
  decide

/-! ## Order-id encoding: decimal rendering is injective for a fixed seed -/

theorem digit_decode : ∀ d < 10, (decChar d).toNat - 48 = d := by decide

theorem decCharsCore_ne_nil (fuel n : ℕ) : decCharsCore (fuel + 1) n ≠ [] := by
  unfold decCharsCore
  split
  · simp
  · simp

theorem decCharsCore_decode :
    ∀ (fuel n : ℕ), n ≤ fuel → ∀ acc : ℕ,
      List.foldl (fun a c => a * 10 + (c.toNat - 48)) acc (decCharsCore (fuel + 1) n) =
        acc * 10 ^ (decCharsCore (fuel + 1) n).length + n := by
  intro fuel
  induction fuel with
  | zero =>
    intro n hn acc
    interval_cases n
    simp [decCharsCore, digit_decode]
  | succ fuel ih =>
    intro n hn acc
    by_cases h10 : n < 10
    · simp only [decCharsCore, if_pos h10]
      simp [digit_decode n h10]
    · have hrec : n / 10 ≤ fuel := by
        have : n / 10 < n := Nat.div_lt_self (by omega) (by norm_num)
        omega
      rw [show decCharsCore (fuel + 1 + 1) n =
          decCharsCore (fuel + 1) (n / 10) ++ [decChar (n % 10)] from by
        rw [decCharsCore, if_neg h10]]
      rw [List.foldl_append, ih (n / 10) hrec acc]
      have hm := digit_decode (n % 10) (Nat.mod_lt n (by norm_num))
      simp only [List.foldl_cons, List.foldl_nil, hm, List.length_append,
        List.length_cons, List.length_nil]
      rw [pow_succ]
      have key : (acc * 10 ^ (decCharsCore (fuel + 1) (n / 10)).length + n / 10) * 10 +
          n % 10 = acc * (10 ^ (decCharsCore (fuel + 1) (n / 10)).length * 10) +
          (10 * (n / 10) + n % 10) := by ring
      rw [key, Nat.div_add_mod]

theorem decode_decChars (n : ℕ) : decodeDec (decChars n) = n := by
  unfold decodeDec decChars
  have := decCharsCore_decode n n le_rfl 0
  simpa using this

theorem foldl_decode_zeros :
    ∀ k : ℕ, List.foldl (fun a c => a * 10 + (c.toNat - 48)) 0 (List.replicate k '0') = 0 := by
  intro k
  induction k with
  | zero => rfl
  | succ k ih => simpa [List.replicate_succ] using ih

theorem decode_padChars (w n : ℕ) : decodeDec (padChars w (decChars n)) = n := by
  unfold decodeDec padChars
  rw [List.foldl_append, foldl_decode_zeros]
  exact decode_decChars n

theorem orderIdStr_inj (seed : ℕ) {a b : ℕ} (h : orderIdStr seed a = orderIdStr seed b) :
    a = b := by
  unfold orderIdStr orderIdChars at h
  injection h with h2
  injection h2 with h3 h4
  have h5 : padChars 8 (decChars a) = padChars 8 (decChars b) :=
    List.append_cancel_left h4
  have h6 := congrArg decodeDec h5
  rwa [decode_padChars, decode_padChars] at h6

/-! ## Claim C7: baskets of generated orders -/

theorem qty_ge_one (c : Prop) [Decidable c] (s : List ℚ) :
    1 ≤ (if c then ((1 : ℤ), s) else randintD 2 5 s).1 := by
  split
  · norm_num
  · have := (randintD_bounds (by norm_num : (2:ℤ) ≤ 5) s).1
    omega

theorem lineStep_spec (products : List Product) (productOrder : List ℕ)
    (oid : String) (ln : ℕ) (st st2 : OIState)
    (h : lineStep products productOrder oid ln st = some st2) :
    st2.orders = st.orders ∧ st2.counter = st.counter ∧
    ∃ item, st2.items = st.items ++ [item] ∧ item.order_id = oid ∧
      item.line_number = ln ∧ 1 ≤ item.qty := by
  unfold lineStep at h
  dsimp only at h
  split at h
  · exact Option.noConfusion h
  · split at h
    · exact Option.noConfusion h
    · split at h
      · exact Option.noConfusion h
      · have h2 := Option.some.inj h
        subst h2
        refine ⟨rfl, rfl, ?_⟩
        refine ⟨_, rfl, rfl, rfl, ?_⟩
        exact qty_ge_one _ _

theorem basketLines_spec (products : List Product) (productOrder : List ℕ)
    (oid : String) :
    ∀ (m a : ℕ) (st st2 : OIState),
      (List.range' a m).foldlM
        (fun s2 ln => lineStep products productOrder oid ln s2) st = some st2 →
      st2.orders = st.orders ∧ st2.counter = st.counter ∧
      ∃ J, st2.items = st.items ++ J ∧ J.map (·.line_number) = List.range' a m ∧
        ∀ j ∈ J, j.order_id = oid ∧ 1 ≤ j.qty := by
  intro m
  induction m with
  | zero =>
    intro a st st2 h
    have h2 : st = st2 := Option.some.inj h
    subst h2
    exact ⟨rfl, rfl, [], by simp, rfl, by simp⟩
  | succ m ih =>
    intro a st st2 h
    rw [List.range'_succ, foldlM_cons_opt] at h
    rcases hl : lineStep products productOrder oid a st with _ | st1
    · rw [hl] at h; exact Option.noConfusion h
    · rw [hl] at h
      simp only [Option.some_bind] at h
      obtain ⟨ho, hc, item, hit, hoid, hln, hqty⟩ :=
        lineStep_spec products productOrder oid a st st1 hl
      obtain ⟨ho2, hc2, J, hJ, hJmap, hJall⟩ := ih (a + 1) st1 st2 h
      refine ⟨by rw [ho2, ho], by rw [hc2, hc], item :: J, ?_, ?_, ?_⟩
      · rw [hJ, hit, List.append_assoc, List.singleton_append]
      · rw [List.map_cons, hln, hJmap, List.range'_succ]
      · intro j hj
        rcases List.mem_cons.mp hj with h3 | h3
        · subst h3; exact ⟨hoid, hqty⟩
        · exact hJall j h3

theorem od_bounds (g q : ℚ) :
    0 ≤ (if q < 3/5 then min (round2 (max 0 g)) (1/4) else 0) ∧
    (if q < 3/5 then min (round2 (max 0 g)) (1/4) else 0) ≤ 1/4 := by
  have h0 : (0:ℚ) ≤ round2 (max 0 g) := by
    have h1 := round2_mono (le_max_left 0 g)
    rwa [show round2 0 = 0 by decide] at h1
  split
  · exact ⟨le_min h0 (by norm_num), min_le_right _ _⟩
  · norm_num

theorem basket_bounds (z : ℤ) :
    1 ≤ (min (max 1 z) 8).toNat ∧ (min (max 1 z) 8).toNat ≤ 8 := by
  have h1 : (1:ℤ) ≤ min (max 1 z) 8 := le_min (le_max_left 1 z) (by norm_num)
  have h2 : min (max 1 z) 8 ≤ 8 := min_le_right _ _
  omega

theorem itemsOf_append (oid : String) (l1 l2 : List OrderItem) :
    itemsOf oid (l1 ++ l2) = itemsOf oid l1 ++ itemsOf oid l2 := by
  unfold itemsOf
  exact List.filter_append _ _

theorem itemsOf_nil_of (oid : String) (l : List OrderItem)
    (h : ∀ it ∈ l, it.order_id ≠ oid) : itemsOf oid l = [] := by
  unfold itemsOf
  induction l with
  | nil => rfl
  | cons a t ih =>
    rw [List.filter_cons]
    have hb : (a.order_id == oid) = false :=
      beq_eq_false_iff_ne.mpr (h a (List.mem_cons_self a t))
    rw [hb]
    simp only [Bool.false_eq_true, if_false]
    exact ih (fun it hit => h it (List.mem_cons_of_mem a hit))

theorem itemsOf_self (oid : String) (l : List OrderItem)
    (h : ∀ it ∈ l, it.order_id = oid) : itemsOf oid l = l := by
  unfold itemsOf
  induction l with
  | nil => rfl
  | cons a t ih =>
    rw [List.filter_cons]
    have hb : (a.order_id == oid) = true := beq_iff_eq.mpr (h a (List.mem_cons_self a t))
    rw [hb]
    simp only [if_true]
    rw [ih (fun it hit => h it (List.mem_cons_of_mem a hit))]

theorem OIInv_bump (seed : ℕ) (st : OIState) (l2 : List ℚ) (hI : OIInv seed st) :
    OIInv seed { st with ls := l2, counter := st.counter + 1 } := by
  obtain ⟨h1, h2, h3⟩ := hI
  refine ⟨?_, ?_, h3⟩
  · intro o ho
    obtain ⟨c, hc1, hc2, hc3, hc4, hc5⟩ := h1 o ho
    exact ⟨c, hc1, le_trans hc2 (Nat.le_succ _), hc3, hc4, hc5⟩
  · intro it hit
    obtain ⟨⟨c, hc1, hc2, hc3⟩, hq⟩ := h2 it hit
    exact ⟨⟨c, hc1, le_trans hc2 (Nat.le_succ _), hc3⟩, hq⟩

theorem foldlM_inv {σ α : Type} (P : σ → Prop) (f : σ → α → Option σ)
    (hf : ∀ (st : σ) (x : α) (st2 : σ), P st → f st x = some st2 → P st2) :
    ∀ (l : List α) (st st2 : σ), List.foldlM f st l = some st2 → P st → P st2 := by
  intro l
  induction l with
  | nil =>
    intro st st2 h hP
    have h2 : st = st2 := Option.some.inj h
    subst h2
    exact hP
  | cons a t ih =>
    intro st st2 h hP
    rw [foldlM_cons_opt] at h
    cases hf1 : f st a with
    | none => rw [hf1] at h; exact Option.noConfusion h
    | some s1 =>
      rw [hf1] at h
      simp only [Option.some_bind] at h
      exact ih s1 st2 h (hf st a s1 hP hf1)

theorem orderStep_inv (stores : List Store) (customers : List Customer)
    (products : List Product) (productOrder : List ℕ) (biasL : List (ℕ × ℚ))
    (seed : ℕ) (t : ℤ) (st st2 : OIState) (hI : OIInv seed st)
    (h : orderStep stores customers products productOrder biasL seed t st = some st2) :
    OIInv seed st2 := by
  unfold orderStep at h
  dsimp only at h
  split at h
  · exact Option.noConfusion h
  · split at h
    · exact Option.noConfusion h
    · split at h
      · have h2 := Option.some.inj h
        subst h2
        exact OIInv_bump seed st _ hI
      · split at h
        · exact Option.noConfusion h
        · unfold basketLines at h
          obtain ⟨ho, hc, J, hJ, hJmap, hJall⟩ :=
            basketLines_spec products productOrder _ _ _ _ _ h
          obtain ⟨h1, h2, h3⟩ := hI
          have hc2 : st2.counter = st.counter + 1 := hc
          have hJ2 : st2.items = st.items ++ J := hJ
          have hitemsOld : ∀ it ∈ st.items,
              it.order_id ≠ orderIdStr seed (st.counter + 1) := by
            intro it hit hcontra
            obtain ⟨⟨c, hcc1, hcc2, hcc3⟩, _⟩ := h2 it hit
            rw [hcc3] at hcontra
            have := orderIdStr_inj seed hcontra
            omega
          have hJnotOld : ∀ oid2, oid2 ≠ orderIdStr seed (st.counter + 1) →
              itemsOf oid2 J = [] := by
            intro oid2 hne
            refine itemsOf_nil_of oid2 J ?_
            intro j hj hcontra
            rw [hJall j hj |>.1] at hcontra
            exact hne hcontra.symm
          refine ⟨?_, ?_, ?_⟩
          · intro o ho2
            have ho2b := ho ▸ ho2
            rcases List.mem_append.mp ho2b with hcase | hcase
            · obtain ⟨c, hcc1, hcc2, hcc3, hcc4, hcc5⟩ := h1 o hcase
              exact ⟨c, hcc1, by omega, hcc3, hcc4, hcc5⟩
            · obtain rfl := List.mem_singleton.mp hcase
              exact ⟨st.counter + 1, by omega, by omega, rfl,
                (od_bounds _ _).1, (od_bounds _ _).2⟩
          · intro it hit
            have hitb := hJ2 ▸ hit
            rcases List.mem_append.mp hitb with hcase | hcase
            · obtain ⟨⟨c, hcc1, hcc2, hcc3⟩, hq⟩ := h2 it hcase
              exact ⟨⟨c, hcc1, by omega, hcc3⟩, hq⟩
            · obtain ⟨hjid, hjq⟩ := hJall it hcase
              exact ⟨⟨st.counter + 1, by omega, by omega, hjid⟩, hjq⟩
          · intro o ho2
            have ho2b := ho ▸ ho2
            rcases List.mem_append.mp ho2b with hcase | hcase
            · obtain ⟨k, hk1, hk2, hk3⟩ := h3 o hcase
              refine ⟨k, hk1, hk2, ?_⟩
              rw [hJ2, itemsOf_append]
              have hone : itemsOf o.order_id J = [] := by
                apply hJnotOld
                obtain ⟨c, hcc1, hcc2, hcc3, _, _⟩ := h1 o hcase
                rw [hcc3]
                intro hcontra
                have := orderIdStr_inj seed hcontra
                omega
              rw [hone, List.append_nil, hk3]
            · obtain rfl := List.mem_singleton.mp hcase
              have hold : itemsOf (orderIdStr seed (st.counter + 1)) st.items = [] :=
                itemsOf_nil_of _ _ hitemsOld
              have hnew : itemsOf (orderIdStr seed (st.counter + 1)) J = J :=
                itemsOf_self _ _ (fun j hj => hJall j hj |>.1)
              have hmap2 : (itemsOf (orderIdStr seed (st.counter + 1)) st2.items).map
                  (·.line_number) = J.map (·.line_number) := by
                rw [hJ2, itemsOf_append, hold, hnew, List.nil_append]
              rw [hJmap] at hmap2
              exact ⟨_, (basket_bounds _).1, (basket_bounds _).2, hmap2⟩

theorem minuteStep_inv (stores : List Store) (customers : List Customer)
    (products : List Product) (productOrder : List ℕ) (biasL : List (ℕ × ℚ))
    (seed : ℕ) (basePerMin : ℚ) (sinp : ℚ → ℚ) (t : ℤ) (st st2 : OIState)
    (hI : OIInv seed st)
    (h : minuteStep stores customers products productOrder biasL seed basePerMin
      sinp t st = some st2) : OIInv seed st2 := by
  unfold minuteStep at h
  dsimp only at h
  refine foldlM_inv (OIInv seed) _ ?_ _ _ _ h hI
  intro s x s2 hP hstep
  exact orderStep_inv stores customers products productOrder biasL seed t s s2 hP hstep

/-- Claim C7: for every order emitted by `gen_orders_and_items` there is at
least one line item carrying its order id, and the items carrying that id
form a basket of `k ∈ [1, 8]` lines numbered exactly `1..k`. -/
theorem claim_C7_basket :
    ∀ (stores : List Store) (customers : List Customer) (products : List Product)
      (startDt endDt : ℤ) (est seed : ℕ) (ls gs : List ℚ) (sinp : ℚ → ℚ)
      (orders : List Order) (items : List OrderItem) (g2 : List ℚ),
      genOrdersAndItems stores customers products startDt endDt est seed ls gs sinp =
        some (orders, items, g2) →
      ∀ o ∈ orders, (∃ it ∈ items, it.order_id = o.order_id) ∧
        ∃ k, 1 ≤ k ∧ k ≤ 8 ∧
          (itemsOf o.order_id items).map (·.line_number) = List.range' 1 k := by
  intro stores customers products startDt endDt est seed ls gs sinp orders items g2 h
  unfold genOrdersAndItems at h
  dsimp only at h
  split at h
  · exact Option.noConfusion h
  · rename_i st heq
    have h2 := Option.some.inj h
    have horders : orders = st.orders := (congrArg Prod.fst h2).symm
    have hitems : items = st.items := (congrArg (fun r => r.2.1) h2).symm
    have hInv : OIInv seed st := by
      refine foldlM_inv (OIInv seed) _ ?_ _ _ _ heq ?_
      · intro s x s2 hP hstep
        exact minuteStep_inv _ _ _ _ _ seed _ sinp _ s s2 hP hstep
      · exact ⟨fun o ho => absurd ho (List.not_mem_nil o),
          fun it hit => absurd hit (List.not_mem_nil it),
          fun o ho => absurd ho (List.not_mem_nil o)⟩
    subst horders
    subst hitems
    intro o ho
    obtain ⟨k, hk1, hk2, hk3⟩ := hInv.2.2 o ho
    refine ⟨?_, k, hk1, hk2, hk3⟩
    have hlen : (itemsOf o.order_id st.items).length = k := by
      have := congrArg List.length hk3
      simpa using this
    have hne : itemsOf o.order_id st.items ≠ [] := by
      intro hcontra
      rw [hcontra] at hlen
      simp at hlen
      omega
    obtain ⟨it, hit⟩ := List.exists_mem_of_ne_nil _ hne
    refine ⟨it, List.mem_of_mem_filter hit, ?_⟩
    have hfil := List.of_mem_filter hit
    exact eq_of_beq hfil

/-- Witness for C7 on a concrete one-minute run producing one order with a
one-line basket. -/
theorem claim_C7_basket_witness :
    (∃ it ∈ demoItemsOut, it.order_id = demoOrderOut.order_id) ∧
    ∃ k, 1 ≤ k ∧ k ≤ 8 ∧
      (itemsOf demoOrderOut.order_id demoItemsOut).map (·.line_number) =
        List.range' 1 k :=
  claim_C7_basket [demoStore] [demoCustomer] [demoProduct, demoProductB] 0 0 1 1
    demoLocalStream [0] sinZero [demoOrderOut] demoItemsOut [] (by decide)
    demoOrderOut (by decide)

/-! ## Pipeline facts backing the hypotheses of C1 and C6 -/

theorem factor_ge (i : ℕ) : (9/10 : ℚ) ≤ [(0.99 : ℚ), 0.95, 0.9, 1].getD i 1 := by
  rcases i with _ | _ | _ | _ | i
  · decide
  · decide
  · decide
  · decide
  · rw [List.getD_eq_default _ _ (by simp)]
    norm_num

theorem priceRound_ge {x c : ℚ} (hc : round2 c = c) (h : c ≤ x) : c ≤ priceRound x := by
  unfold priceRound
  calc c = round2 c := hc.symm
    _ ≤ round2 (max x (1/100)) := round2_mono (le_trans h (le_max_left _ _))

theorem twoDec_priceRound (p : ℚ) : twoDec (priceRound p) := twoDec_round2 _

theorem mkProduct_base (pid : ℕ) (cat : String) (brands : List String) (s : List ℚ) :
    9/10 ≤ (mkProduct pid cat brands s).1.base_price ∧
    twoDec (mkProduct pid cat brands s).1.base_price := by
  refine ⟨?_, twoDec_priceRound _⟩
  have hu := uniformD_bounds (by norm_num : (1:ℚ) ≤ 30) (randSku (chooseIdx brands.length s).2).2
  have hf := factor_ge (chooseIdx 4 (uniformD 1 30 (randSku (chooseIdx brands.length s).2).2).2).1
  refine priceRound_ge (by decide) ?_
  have h0 : (0:ℚ) ≤ [(0.99 : ℚ), 0.95, 0.9, 1].getD
      (chooseIdx 4 (uniformD 1 30 (randSku (chooseIdx brands.length s).2).2).2).1 1 := by
    linarith
  calc (9/10 : ℚ) ≤ 1 * (9/10) := by norm_num
    _ ≤ (uniformD 1 30 (randSku (chooseIdx brands.length s).2).2).1 *
        [(0.99 : ℚ), 0.95, 0.9, 1].getD
          (chooseIdx 4 (uniformD 1 30 (randSku (chooseIdx brands.length s).2).2).2).1 1 :=
      mul_le_mul hu.1 hf (by norm_num) (by linarith [hu.1])

theorem uniform_1_30_ge (q : ℚ) : (9/10 : ℚ) ≤ 1 + (30 - 1) * toUnit q := by
  have h := toUnit_bounds q
  have h2 : (0:ℚ) ≤ (30 - 1) * toUnit q := mul_nonneg (by norm_num) h.1
  linarith

theorem mkFillProduct_base (pid : ℕ) (s : List ℚ) :
    9/10 ≤ (mkFillProduct pid s).1.base_price ∧
    twoDec (mkFillProduct pid s).1.base_price := by
  refine ⟨?_, twoDec_priceRound _⟩
  exact priceRound_ge (by decide) (uniform_1_30_ge _)

theorem prodInner_base (cat : String) (brands : List String) :
    ∀ (k pid n : ℕ) (s : List ℚ),
      ∀ p ∈ (prodInner cat brands k pid n s).1,
        9/10 ≤ p.base_price ∧ twoDec p.base_price := by
  intro k
  induction k with
  | zero => intro pid n s p hp; simp [prodInner] at hp
  | succ k ih =>
    intro pid n s p hp
    simp only [prodInner] at hp
    split at hp
    · rw [List.mem_singleton] at hp
      subst hp
      exact mkProduct_base pid cat brands s
    · rcases List.mem_cons.mp hp with h1 | h1
      · subst h1
        exact mkProduct_base pid cat brands s
      · exact ih (pid + 1) n _ p h1

theorem prodOuter_base :
    ∀ (cats : List (String × List String)) (perCat pid n : ℕ) (s : List ℚ),
      ∀ p ∈ (prodOuter cats perCat pid n s).1,
        9/10 ≤ p.base_price ∧ twoDec p.base_price := by
  intro cats
  induction cats with
  | nil => intro perCat pid n s p hp; simp [prodOuter] at hp
  | cons cb rest ih =>
    intro perCat pid n s p hp
    obtain ⟨c, brands⟩ := cb
    simp only [prodOuter] at hp
    split at hp
    · exact prodInner_base c brands perCat pid n s p hp
    · rcases List.mem_append.mp hp with h1 | h1
      · exact prodInner_base c brands perCat pid n s p h1
      · exact ih perCat _ n _ p h1

theorem prodFill_base :
    ∀ (ids : List ℕ) (s : List ℚ),
      ∀ p ∈ (prodFill ids s).1, 9/10 ≤ p.base_price ∧ twoDec p.base_price := by
  intro ids
  induction ids with
  | nil => intro s p hp; simp [prodFill] at hp
  | cons i rest ih =>
    intro s p hp
    simp only [prodFill] at hp
    rcases List.mem_cons.mp hp with h1 | h1
    · subst h1
      exact mkFillProduct_base i s
    · exact ih _ p h1

/-- Every product the generator emits has a two-decimal base price of at
least 0.9 — the facts the pricing claims assume about `base_price`. -/
theorem genProducts_base (n : ℕ) (s : List ℚ) :
    ∀ p ∈ (genProducts n s).1, 9/10 ≤ p.base_price ∧ twoDec p.base_price := by
  intro p hp
  unfold genProducts at hp
  rcases List.mem_append.mp hp with h1 | h1
  · exact prodOuter_base CATEGORIES _ 1 n s p h1
  · exact prodFill_base _ _ p h1

/-- Every generated promotion's discount lies in `[0.05, 0.30]`. -/
theorem genPromotions_disc :
    ∀ (products : List Product) (startD endD : ℤ) (s : List ℚ),
      ∀ pr ∈ (genPromotions products startD endD s).1,
        1/20 ≤ pr.discount_pct ∧ pr.discount_pct ≤ 3/10 := by
  intro products startD endD s pr hmem
  unfold genPromotions at hmem
  induction products generalizing s with
  | nil => simp [genPromosAux] at hmem
  | cons p rest ih =>
    simp only [genPromosAux] at hmem
    split at hmem
    · simp only at hmem
      rcases List.mem_cons.mp hmem with h1 | h1
      · subst h1
        have hu := uniformD_bounds (by norm_num : (1/20 : ℚ) ≤ 3/10)
          (chooseIdx PROMO_TYPES.length (randintD 0
            (max 0 (endD - startD - (randintD 5 14 (randomU s).2).1))
            (randintD 5 14 (randomU s).2).2).2).2
        constructor
        · have h2 := round2_mono hu.1
          rwa [show round2 (1/20) = 1/20 by decide] at h2
        · have h2 := round2_mono hu.2
          rwa [show round2 (3/10) = 3/10 by decide] at h2
      · exact ih _ h1
    · exact ih _ hmem

/-- The promotion index built from generated promotions always yields an
active discount in `[0, 0.30]` — the fact the pricing claims assume about
the promotional discount. -/
theorem isPromoActive_bounds (promos : List Promotion)
    (hp : ∀ pr ∈ promos, 1/20 ≤ pr.discount_pct ∧ pr.discount_pct ≤ 3/10) :
    ∀ (pid : ℕ) (ts : ℤ),
      0 ≤ isPromoActive pid ts (promoLookup promos) ∧
      isPromoActive pid ts (promoLookup promos) ≤ 3/10 := by
  intro pid ts
  unfold isPromoActive
  cases hf : (promoLookup promos pid).find?
      (fun w => decide (w.1 ≤ dayOf ts) && decide (dayOf ts ≤ w.2.1)) with
  | none => exact ⟨le_refl 0, by norm_num⟩
  | some w =>
    have hmem := List.mem_of_find?_eq_some hf
    unfold promoLookup at hmem
    obtain ⟨pr, hpr1, hpr2⟩ := List.mem_map.mp hmem
    have hpr3 := hp pr (List.mem_of_mem_filter hpr1)
    have hw : w.2.2 = pr.discount_pct := by rw [← hpr2]
    dsimp only
    rw [hw]
    exact ⟨by linarith [hpr3.1], hpr3.2⟩

/-- Every generated order's discount lies in `[0, 1/4]` and every generated
line item has quantity at least 1 — the facts the pricing claims assume
about orders and quantities. -/
theorem genOrdersAndItems_bounds :
    ∀ (stores : List Store) (customers : List Customer) (products : List Product)
      (startDt endDt : ℤ) (est seed : ℕ) (ls gs : List ℚ) (sinp : ℚ → ℚ)
      (orders : List Order) (items : List OrderItem) (g2 : List ℚ),
      genOrdersAndItems stores customers products startDt endDt est seed ls gs sinp =
        some (orders, items, g2) →
      (∀ o ∈ orders, 0 ≤ o.discount_pct ∧ o.discount_pct ≤ 1/4) ∧
      (∀ it ∈ items, 1 ≤ it.qty) := by
  intro stores customers products startDt endDt est seed ls gs sinp orders items g2 h
  unfold genOrdersAndItems at h
  dsimp only at h
  split at h
  · exact Option.noConfusion h
  · rename_i st heq
    have h2 := Option.some.inj h
    have horders : orders = st.orders := (congrArg Prod.fst h2).symm
    have hitems : items = st.items := (congrArg (fun r => r.2.1) h2).symm
    have hInv : OIInv seed st := by
      refine foldlM_inv (OIInv seed) _ ?_ _ _ _ heq ?_
      · intro s2 x s3 hP hstep
        exact minuteStep_inv _ _ _ _ _ seed _ sinp _ s2 s3 hP hstep
      · exact ⟨fun o ho => absurd ho (List.not_mem_nil o),
          fun it hit => absurd hit (List.not_mem_nil it),
          fun o ho => absurd ho (List.not_mem_nil o)⟩
    subst horders
    subst hitems
    constructor
    · intro o ho
      obtain ⟨c, _, _, _, h4, h5⟩ := hInv.1 o ho
      exact ⟨h4, h5⟩
    · intro it hit
      exact (hInv.2.1 it hit).2

/-- Claim C9: `gen_orders_and_items` is not a function of its arguments
alone — with identical arguments (stores, customers, products, window,
estimate, seed and even the same local `Random(seed+777)` stream), two
different module-global RNG states produce different item streams.  The
global draw feeds only `zipf_like_index`, so the two runs below emit the
same order but pick product 2 versus product 1 for its single line. -/
theorem claim_C9_global_rng :
    (Option.map (fun r => r.2.1.map (·.product_id))
      (genOrdersAndItems [demoStore] [demoCustomer] [demoProduct, demoProductB]
        0 0 1 1 demoLocalStream [0] sinZero) = some [2]) ∧
    (Option.map (fun r => r.2.1.map (·.product_id))
      (genOrdersAndItems [demoStore] [demoCustomer] [demoProduct, demoProductB]
        0 0 1 1 demoLocalStream [9/10] sinZero) = some [1]) ∧
    (Option.map (fun r => r.1)
      (genOrdersAndItems [demoStore] [demoCustomer] [demoProduct, demoProductB]
        0 0 1 1 demoLocalStream [0] sinZero) =
      Option.map (fun r => r.1)
      (genOrdersAndItems [demoStore] [demoCustomer] [demoProduct, demoProductB]
        0 0 1 1 demoLocalStream [9/10] sinZero)) :=
  ⟨by decide, by decide, by decide⟩

/-! ## Claim C3: dense sequential ids -/

theorem genStoresAux_ids (startD : ℤ) :
    ∀ (ids : List ℕ) (s : List ℚ),
      ((genStoresAux startD ids s).1).map (·.store_id) = ids := by
  intro ids
  induction ids with
  | nil => intro s; simp [genStoresAux]
  | cons i rest ih => intro s; simp [genStoresAux, ih]

theorem mkProduct_id (pid : ℕ) (cat : String) (brands : List String) (s : List ℚ) :
    (mkProduct pid cat brands s).1.product_id = pid := rfl

theorem prodInner_spec (cat : String) (brands : List String) :
    ∀ (k pid n : ℕ) (s : List ℚ) (ps : List Product) (pid2 : ℕ) (s2 : List ℚ) (stop : Bool),
      pid ≤ n →
      prodInner cat brands k pid n s = (ps, pid2, s2, stop) →
      ps.map (·.product_id) = List.range' pid ps.length ∧
      pid2 = pid + ps.length ∧
      (stop = true → pid2 = n + 1) ∧
      (stop = false → pid2 ≤ n) := by
  intro k
  induction k with
  | zero =>
    intro pid n s ps pid2 s2 stop hle heq
    simp only [prodInner, Prod.mk.injEq] at heq
    obtain ⟨h1, h2, h3, h4⟩ := heq
    subst h1; subst h2; subst h4
    simp [hle]
  | succ k ih =>
    intro pid n s ps pid2 s2 stop hle heq
    simp only [prodInner] at heq
    split at heq
    · next hlt =>
      simp only [Prod.mk.injEq] at heq
      obtain ⟨h1, h2, h3, h4⟩ := heq
      subst h1; subst h2; subst h4
      refine ⟨by simp [mkProduct_id, List.range'], by simp, fun _ => by omega, by simp⟩
    · next hge =>
      rcases hrec : prodInner cat brands k (pid + 1) n (mkProduct pid cat brands s).2
        with ⟨ps1, pid3, s3, stop1⟩
      rw [hrec] at heq
      simp only [Prod.mk.injEq] at heq
      obtain ⟨h1, h2, h3, h4⟩ := heq
      subst h1; subst h2; subst h4
      obtain ⟨m1, m2, m3, m4⟩ := ih (pid + 1) n _ ps1 pid3 s3 stop1 (by omega) hrec
      refine ⟨?_, by simp only [List.length_cons]; omega, m3, m4⟩
      simp only [List.map_cons, mkProduct_id, m1, List.length_cons]
      rw [List.range'_succ]

theorem prodOuter_spec :
    ∀ (cats : List (String × List String)) (perCat pid n : ℕ) (s : List ℚ)
      (ps : List Product) (pid2 : ℕ) (s2 : List ℚ),
      pid ≤ n →
      prodOuter cats perCat pid n s = (ps, pid2, s2) →
      ps.map (·.product_id) = List.range' pid ps.length ∧
      pid2 = pid + ps.length ∧ pid2 ≤ n + 1 := by
  intro cats
  induction cats with
  | nil =>
    intro perCat pid n s ps pid2 s2 hle heq
    simp only [prodOuter, Prod.mk.injEq] at heq
    obtain ⟨h1, h2, h3⟩ := heq
    subst h1; subst h2
    simp [List.range']
    omega
  | cons cb rest ih =>
    intro perCat pid n s ps pid2 s2 hle heq
    obtain ⟨c, brands⟩ := cb
    simp only [prodOuter] at heq
    rcases hInner : prodInner c brands perCat pid n s with ⟨psI, pidI, sI, stopI⟩
    rw [hInner] at heq
    obtain ⟨m1, m2, m3, m4⟩ := prodInner_spec c brands perCat pid n s psI pidI sI stopI hle hInner
    split at heq
    · next hstop =>
      simp only [Prod.mk.injEq] at heq
      obtain ⟨h1, h2, h3⟩ := heq
      subst h1; subst h2
      have := m3 hstop
      exact ⟨m1, m2, by omega⟩
    · next hstop =>
      have hIle : pidI ≤ n := m4 (by simpa using hstop)
      rcases hOut : prodOuter rest perCat pidI n sI with ⟨psO, pidO, sO⟩
      rw [hOut] at heq
      simp only [Prod.mk.injEq] at heq
      obtain ⟨h1, h2, h3⟩ := heq
      subst h1; subst h2
      obtain ⟨o1, o2, o3⟩ := ih perCat pidI n sI psO pidO sO hIle hOut
      refine ⟨?_, ?_, by omega⟩
      · rw [List.map_append, m1, o1, m2, List.length_append,
          Nat.add_comm psI.length psO.length]
        exact List.range'_append_1 pid psI.length psO.length
      · simp only [List.length_append]
        omega

theorem mkFillProduct_id (pid : ℕ) (s : List ℚ) :
    (mkFillProduct pid s).1.product_id = pid := rfl

theorem prodFill_ids :
    ∀ (ids : List ℕ) (s : List ℚ), ((prodFill ids s).1).map (·.product_id) = ids := by
  intro ids
  induction ids with
  | nil => intro s; simp [prodFill]
  | cons i rest ih => intro s; simp [prodFill, mkFillProduct_id, ih]

theorem genProducts_ids {n : ℕ} (hn : 1 ≤ n) (s : List ℚ) :
    (genProducts n s).1.map (·.product_id) = List.range' 1 n ∧
    (genProducts n s).1.length = n := by
  unfold genProducts
  rcases hO : prodOuter CATEGORIES (max 1 (n / 6)) 1 n s with ⟨ps1, pid1, s1⟩
  obtain ⟨o1, o2, o3⟩ := prodOuter_spec CATEGORIES (max 1 (n / 6)) 1 n s ps1 pid1 s1 hn hO
  rcases hF : prodFill (List.range' pid1 (n + 1 - pid1)) s1 with ⟨ps2, s2⟩
  have f1 : ps2.map (·.product_id) = List.range' pid1 (n + 1 - pid1) := by
    have := prodFill_ids (List.range' pid1 (n + 1 - pid1)) s1
    rw [hF] at this
    exact this
  have f2 : ps2.length = n + 1 - pid1 := by
    have := congrArg List.length f1
    simpa using this
  simp only [hO, hF]
  constructor
  · rw [List.map_append, o1, f1, o2]
    have h := List.range'_append_1 1 ps1.length (n + 1 - (1 + ps1.length))
    rw [show n + 1 - (1 + ps1.length) + ps1.length = n by omega] at h
    exact h
  · rw [List.length_append, f2]
    omega

/-- Counterexample for C3: `gen_products(0)` emits one product (with id 1)
rather than the empty list, because the early-return check runs only after
the first append and `per_cat = max(1, 0) = 1`. -/
theorem claim_C3_counterexample :
    (genProducts 0 []).1.length = 1 ∧ (genProducts 0 []).1.map (·.product_id) = [1] := by
  decide

/-- Claim C3 (amended): for every count `n ≥ 1`, `gen_products` returns
exactly `n` products with ids exactly `1..n`; `gen_stores` and
`gen_customers` return dense ids `1..count` for every count `≥ 0`; but
`gen_products 0` returns one product (id 1), not the empty list. -/
theorem claim_C3_amended :
    ∀ (n m k : ℕ) (startD now : ℤ) (s1 s2 s3 : List ℚ), 1 ≤ n →
      ((genProducts n s1).1.map (·.product_id) = List.range' 1 n ∧
        (genProducts n s1).1.length = n) ∧
      ((genStores m startD s2).1.map (·.store_id) = List.range' 1 m ∧
        (genStores m startD s2).1.length = m) ∧
      ((genCustomers k now s3).1.map (·.customer_id) = List.range' 1 k ∧
        (genCustomers k now s3).1.length = k) := by
  intro n m k startD now s1 s2 s3 hn
  refine ⟨genProducts_ids hn s1, ⟨genStoresAux_ids startD _ s2, ?_⟩,
    ⟨genCustomersAux_ids now _ s3, ?_⟩⟩
  · have := congrArg List.length (genStoresAux_ids startD (List.range' 1 m) s2)
    simpa using this
  · have := congrArg List.length (genCustomersAux_ids now (List.range' 1 k) s3)
    simpa using this

/-- Witness for the amended C3 at `n = 7`, `m = 2`, `k = 2`. -/
theorem claim_C3_amended_witness :
    ((genProducts 7 []).1.map (·.product_id) = List.range' 1 7 ∧
      (genProducts 7 []).1.length = 7) ∧
    ((genStores 2 0 []).1.map (·.store_id) = List.range' 1 2 ∧
      (genStores 2 0 []).1.length = 2) ∧
    ((genCustomers 2 0 []).1.map (·.customer_id) = List.range' 1 2 ∧
      (genCustomers 2 0 []).1.length = 2) :=
  claim_C3_amended 7 2 2 0 0 [] [] [] (by norm_num)

/-! ## Claim C4: promotion windows -/

theorem promoArith (startD endD dur off : ℤ) (hdur : 5 ≤ dur ∧ dur ≤ 14)
    (hoff : 0 ≤ off ∧ off ≤ max 0 (endD - startD - dur)) :
    startD ≤ startD + off ∧ 5 ≤ (startD + off + dur) - (startD + off) ∧
    (startD + off + dur) - (startD + off) ≤ 14 ∧
    ((startD + off + dur) - (startD + off) ≤ endD - startD → startD + off + dur ≤ endD) ∧
    (endD - startD < (startD + off + dur) - (startD + off) → startD + off = startD) := by
  obtain ⟨hd1, hd2⟩ := hdur
  obtain ⟨ho1, ho2⟩ := hoff
  by_cases hfits : 0 ≤ endD - startD - dur
  · rw [max_eq_right hfits] at ho2
    refine ⟨by omega, by omega, by omega, by omega, by omega⟩
  · rw [max_eq_left (by omega)] at ho2
    refine ⟨by omega, by omega, by omega, by omega, by omega⟩

/-- Claim C4 (amended): every emitted promotion starts no earlier than the
window start and has duration in `[5, 14]`; its end stays inside the window
exactly when the drawn duration fits, but a window shorter than the duration
anchors the promotion at the window start with `end_date` overrunning
`window_end` — the promotion is still emitted, not skipped (and no error is
raised in either case). -/
theorem claim_C4_amended :
    ∀ (products : List Product) (startD endD : ℤ) (s : List ℚ),
      ∀ pr ∈ (genPromotions products startD endD s).1,
        startD ≤ pr.start_date ∧
        5 ≤ pr.end_date - pr.start_date ∧ pr.end_date - pr.start_date ≤ 14 ∧
        (pr.end_date - pr.start_date ≤ endD - startD → pr.end_date ≤ endD) ∧
        (endD - startD < pr.end_date - pr.start_date → pr.start_date = startD) := by
  intro products startD endD s pr hmem
  unfold genPromotions at hmem
  induction products generalizing s with
  | nil => simp [genPromosAux] at hmem
  | cons p rest ih =>
    simp only [genPromosAux] at hmem
    split at hmem
    · simp only at hmem
      rcases List.mem_cons.mp hmem with h1 | h1
      · subst h1
        exact promoArith startD endD _ _ (randintD_bounds (by norm_num) _)
          (randintD_bounds (le_max_left _ _) _)
      · exact ih _ h1
    · exact ih _ hmem

/-- Counterexample for C4: on the one-day window `[0, 0]` the drawn 5-day
duration cannot fit, yet a promotion is emitted whose `end_date` (day 5)
lies outside the window instead of the promotion being skipped. -/
theorem claim_C4_counterexample :
    ∃ pr ∈ (genPromotions [demoProduct] 0 0 []).1, 0 < pr.end_date := by decide

/-- Witness for the amended C4 at the concrete one-day window. -/
theorem claim_C4_amended_witness :
    demoPromo ∈ (genPromotions [demoProduct] 0 0 []).1 ∧
    ((0:ℤ) ≤ demoPromo.start_date ∧
      5 ≤ demoPromo.end_date - demoPromo.start_date ∧
      demoPromo.end_date - demoPromo.start_date ≤ 14 ∧
      (demoPromo.end_date - demoPromo.start_date ≤ 0 - 0 → demoPromo.end_date ≤ 0) ∧
      (0 - 0 < demoPromo.end_date - demoPromo.start_date → demoPromo.start_date = 0)) :=
  ⟨by decide, claim_C4_amended [demoProduct] 0 0 [] demoPromo (by decide)⟩

/-- Witness for C8 on a one-store, one-product, one-day run. -/
theorem claim_C8_inventory_witness :
    (demoSnap ∈ (genInventorySnapshots [demoStore] [demoProduct] 0 0 []).1) ∧
    (0 ≤ demoSnap.on_hand ∧ 5 ≤ demoSnap.safety_stock ∧
      (0 < demoSnap.on_order → demoSnap.on_hand < demoSnap.safety_stock) ∧
      (demoSnap.safety_stock ≤ demoSnap.on_hand →
        demoSnap.on_order = 0 ∧ demoSnap.reorder_qty = 0)) :=
  ⟨by decide, claim_C8_inventory [demoStore] [demoProduct] 0 0 [] demoSnap (by decide)⟩

end SeedData
